import Mathlib

/-!
Verification development for the quarterly dashboard data generator
(`scripts/generate_enterprise_quarterly.py` and
`scripts/generate_quarterly_data.py`).

Shallow embedding conventions:
* Python floats are modelled as rationals (`ℚ`); the arithmetic performed by
  the scripts (multiplication, addition, `max`/`min` clamping, rounding) is
  exact on the inputs of interest, so `ℚ` is a faithful model of the
  value-level algebra.
* The process-wide random source (`random.seed(42)` followed by calls to
  `random.uniform` / `random.random`) is modelled as an explicit stream of
  unit draws: a function `ℕ → ℚ` together with a cursor.  Each call to
  `random.random()` consumes the draw at the cursor and advances it;
  `random.uniform(a, b)` is `a + (b - a) * random.random()` exactly as in
  CPython.  Theorems that need the draws to be in the range produced by
  CPython state `0 ≤ draw < 1` as a hypothesis.
* Absent values (Python `None`) are `Option.none`.
-/

namespace AuditDashboard

/-- Explicit random source: the stream of unit draws produced by the seeded
process-wide generator, plus a cursor marking the next unconsumed draw. -/
structure Rng where
  draws : ℕ → ℚ
  idx : ℕ

/-- Consume one unit draw (models a call to `random.random()`). -/
def Rng.next (g : Rng) : ℚ × Rng :=
  (g.draws g.idx, ⟨g.draws, g.idx + 1⟩)

/-- Models `random.uniform(a, b)`, which CPython computes as
`a + (b - a) * random.random()`. -/
def uniform (a b : ℚ) (g : Rng) : ℚ × Rng :=
  let p := g.next
  (a + (b - a) * p.1, p.2)

/-- Python `round` (banker's rounding): round to the nearest integer,
with ties going to the even integer. -/
def pyRound (q : ℚ) : ℤ :=
  if q - ⌊q⌋ < 1/2 then ⌊q⌋
  else if 1/2 < q - ⌊q⌋ then ⌊q⌋ + 1
  else if ⌊q⌋ % 2 = 0 then ⌊q⌋ else ⌊q⌋ + 1

/-- Function `vary_value` (identical in both scripts:
`generate_enterprise_quarterly.py` lines 31-57 and
`generate_quarterly_data.py` lines 74-99, where `trend_offset` is
`self.trend_offset`).  Given `None` it returns `None`; otherwise it applies a
trend of 1.5 percent per period unit in the configured direction plus a
uniform random factor from `[-volatility, volatility]`, then clamps the
result into `[min_val, max_val]` via `max(min_val, min(max_val, varied))`. -/
def vary_value (value : Option ℚ) (trend_offset : ℤ) (improvement_trend : Bool)
    (volatility min_val max_val : ℚ) (g : Rng) : Option ℚ × Rng :=
  match value with
  | none => (none, g)
  | some v =>
      let trend_direction : ℚ := if improvement_trend then 1 else -1
      let trend_factor : ℚ := (trend_offset : ℚ) * (15/1000) * trend_direction
      let pr := uniform (-volatility) volatility g
      let varied := v * (1 + trend_factor + pr.1)
      (some (max min_val (min max_val varied)), pr.2)

/-- Function `vary_count` (identical in both scripts:
`generate_enterprise_quarterly.py` lines 60-66 and
`generate_quarterly_data.py` lines 101-107): `None` and `0` pass through
unchanged without consuming a draw; otherwise the value is varied with bounds
`[0, 999999]` and rounded with `int(round(...))`. -/
def vary_count (count : Option ℚ) (trend_offset : ℤ) (improvement_trend : Bool)
    (volatility : ℚ) (g : Rng) : Option ℚ × Rng :=
  match count with
  | none => (none, g)
  | some c =>
      if c = 0 then (some c, g)
      else
        let pr := vary_value (some c) trend_offset improvement_trend volatility 0 999999 g
        (pr.1.map (fun x => ((pyRound x : ℤ) : ℚ)), pr.2)

/-! ## JSON documents

The baseline dashboard documents are arbitrary JSON values.  Objects are
modelled as insertion-ordered association lists, matching the semantics of
CPython dictionaries (`json.load` preserves key order, assignment to an
existing key keeps its position, assignment to a fresh key appends). -/

/-- JSON values.  Numbers are rationals; see the header comment. -/
inductive Json : Type where
  | null : Json
  | bool (b : Bool) : Json
  | num (q : ℚ) : Json
  | str (s : String) : Json
  | arr (items : List Json) : Json
  | obj (fields : List (String × Json)) : Json

/-- First value stored under a key (CPython dict lookup). -/
def getKey : List (String × Json) → String → Option Json
  | [], _ => none
  | (k, v) :: rest, s => if k = s then some v else getKey rest s

/-- CPython dict assignment `d[s] = v`: replace in place if the key is
present, otherwise append at the end. -/
def setKey : List (String × Json) → String → Json → List (String × Json)
  | [], s, v => [(s, v)]
  | (k, w) :: rest, s, v => if k = s then (k, v) :: rest else (k, w) :: setKey rest s v

/-- Numeric reading of a JSON value, as Python arithmetic sees it
(`True`/`False` are the integers 1/0; everything non-numeric is rejected). -/
def asNum : Json → Option ℚ
  | .num q => some q
  | .bool b => some (if b then 1 else 0)
  | _ => none

/-- Models `sum(d.values())`: defined when every value is numeric
(CPython raises `TypeError` otherwise). -/
def sumVals : List (String × Json) → Option ℚ
  | [] => some 0
  | (_, v) :: rest =>
      match asNum v, sumVals rest with
      | some q, some s => some (q + s)
      | _, _ => none

/-- One step of a path into a JSON document: an object key or an array
index. -/
inductive Step : Type where
  | key (s : String) : Step
  | idx (n : ℕ) : Step
deriving DecidableEq

/-- Value reached by following a path of keys and indices. -/
def getPath : Json → List Step → Option Json
  | j, [] => some j
  | .obj fs, .key s :: p =>
      match getKey fs s with
      | some v => getPath v p
      | none => none
  | .arr xs, .idx n :: p =>
      match xs.get? n with
      | some v => getPath v p
      | none => none
  | _, _ => none

/-- In-place document transformations threading the random source (the shape
of every field-walking step in `generate_quarterly_data.py`). -/
abbrev Upd : Type := Json → Rng → Json × Rng

/-- Models the guarded update pattern `if k in d: d[k] = ...` (or an
unconditional access `d[k]` behind such a guard): the inner transform runs,
and consumes random draws, only when the key is present.  On a value that is
not a dict CPython would raise; modelled as the identity. -/
def modKey (k : String) (f : Upd) : Upd := fun j g =>
  match j with
  | .obj fs =>
      match getKey fs k with
      | some v =>
          let p := f v g
          (.obj (setKey fs k p.1), p.2)
      | none => (.obj fs, g)
  | _ => (j, g)

/-- Models `sub = d.get(k, {})` followed by in-place mutation of `sub`: the
inner transform always runs (on a fresh empty dict when the key is absent,
consuming exactly the draws CPython would), but its result is stored back
only when the key was present. -/
def withSub (k : String) (f : Upd) : Upd := fun j g =>
  match j with
  | .obj fs =>
      match getKey fs k with
      | some v =>
          let p := f v g
          (.obj (setKey fs k p.1), p.2)
      | none =>
          let p := f (.obj []) g
          (.obj fs, p.2)
  | _ => (j, g)

/-- Sequencing of two in-place updates. -/
def seqU (f h : Upd) : Upd := fun j g =>
  let p := f j g
  h p.1 p.2

/-- Unconditional assignment `d[k] = v` of a fixed value (used for the
metadata fields).  On a non-dict CPython raises; modelled as the identity. -/
def setField (k : String) (v : Json) (j : Json) : Json :=
  match j with
  | .obj fs => .obj (setKey fs k v)
  | _ => j

/-- Field-level `vary_value`: `null` (Python `None`) passes through without
consuming a draw, numeric values (including Python booleans) are perturbed,
and any other value — on which CPython would raise `TypeError` — is modelled
as passing through unchanged. -/
def varyValueJson (trend_offset : ℤ) (improvement_trend : Bool)
    (volatility min_val max_val : ℚ) : Upd := fun j g =>
  match j with
  | .null => (.null, g)
  | j =>
      match asNum j with
      | some v =>
          let pr := vary_value (some v) trend_offset improvement_trend volatility
            min_val max_val g
          (match pr.1 with
           | some w => .num w
           | none => .null, pr.2)
      | none => (j, g)

/-- Field-level `vary_count`: like `varyValueJson` but zero passes through
unchanged and the result is rounded to an integer (bounds `[0, 999999]`). -/
def varyCountJson (trend_offset : ℤ) (improvement_trend : Bool)
    (volatility : ℚ) : Upd := fun j g =>
  match j with
  | .null => (.null, g)
  | j =>
      match asNum j with
      | some c =>
          if c = 0 then (j, g)
          else
            let pr := vary_count (some c) trend_offset improvement_trend volatility g
            (match pr.1 with
             | some w => .num w
             | none => .null, pr.2)
      | none => (j, g)

/-! ## The business-unit generator (`generate_quarterly_data.py`) -/

/-- Models `finding.get("status") == s` for a string literal `s`. -/
def statusIs (fs : List (String × Json)) (s : String) : Bool :=
  match getKey fs "status" with
  | some (.str t) => t = s
  | _ => false

/-- First `if` block of the finding loop (`vary_audit_findings`, lines
300-302): in a future period an open finding is closed when
`random.random() < 0.3`. -/
def flipOpen (off : ℤ) (fs : List (String × Json)) (g : Rng) :
    List (String × Json) × Rng :=
  if 0 < off ∧ statusIs fs "Open" = true then
    let d := g.next
    ((if d.1 < 3/10 then setKey fs "status" (.str "Closed") else fs), d.2)
  else (fs, g)

/-- Second `if` block of the finding loop (lines 305-307): in a past period a
closed finding is reopened when `random.random() < 0.2`. -/
def flipClosed (off : ℤ) (fs : List (String × Json)) (g : Rng) :
    List (String × Json) × Rng :=
  if off < 0 ∧ statusIs fs "Closed" = true then
    let d := g.next
    ((if d.1 < 2/10 then setKey fs "status" (.str "Open") else fs), d.2)
  else (fs, g)

/-- Per-finding status flip (`vary_audit_findings`, lines 296-307): the two
guarded blocks in sequence.  List elements that are not dicts make CPython
raise; modelled as the identity. -/
def flipStatus (off : ℤ) : Upd := fun j g =>
  match j with
  | .obj fs =>
      let p := flipOpen off fs g
      let q := flipClosed off p.1 p.2
      (.obj q.1, q.2)
  | j => (j, g)

/-- Apply an update to each element of a list in order, threading the random
source (the `for finding in findings_list` loop). -/
def mapRng (f : Upd) : List Json → Rng → List Json × Rng
  | [], g => ([], g)
  | x :: xs, g =>
      let p := f x g
      let q := mapRng f xs p.2
      (p.1 :: q.1, q.2)

/-- Walk the `findings` list; a non-list value is left unchanged. -/
def varyFindingsList (off : ℤ) : Upd := fun j g =>
  match j with
  | .arr items =>
      let p := mapRng (flipStatus off) items g
      (.arr p.1, p.2)
  | j => (j, g)

/-- Models lines 279-281 of `generate_quarterly_data.py`:
`if by_severity: summary["total"] = sum(by_severity.values())`.  A dict is
truthy exactly when non-empty; a non-numeric severity value would make
CPython raise inside `sum`, modelled as a no-op. -/
def recomputeTotal : Upd := fun j g =>
  match j with
  | .obj fs =>
      (match getKey fs "bySeverity" with
       | some (.obj sevs) =>
           if sevs.isEmpty then .obj fs
           else
             match sumVals sevs with
             | some t => .obj (setKey fs "total" (.num t))
             | none => .obj fs
       | _ => .obj fs, g)
  | j => (j, g)

/-- Method `vary_executive_scorecard` (lines 109-141). -/
def vary_executive_scorecard (off : ℤ) : Upd :=
  withSub "executiveScorecard" (seqU
    (modKey "overallScore" (modKey "value" (varyValueJson off true (2/100) 60 95)))
    (seqU
      (withSub "riskMetrics"
        (seqU (modKey "amlCompliance" (varyValueJson off true (25/1000) 0 100))
          (seqU (modKey "fraudRisk" (varyValueJson off true (25/1000) 0 100))
            (seqU (modKey "operationalRisk" (varyValueJson off true (25/1000) 0 100))
              (modKey "cyberSecurity" (varyValueJson off true (25/1000) 0 100))))))
      (withSub "alerts"
        (seqU (modKey "critical" (varyCountJson off false (15/100)))
          (seqU (modKey "high" (varyCountJson off false (15/100)))
            (seqU (modKey "medium" (varyCountJson off false (15/100)))
              (modKey "low" (varyCountJson off false (15/100)))))))))

/-- Method `vary_compliance_metrics` (lines 143-175). -/
def vary_compliance_metrics (off : ℤ) : Upd :=
  withSub "complianceMetrics" (seqU
    (withSub "training"
      (modKey "completion" (modKey "overall" (varyValueJson off true (2/100) 80 99))))
    (seqU
      (withSub "regulatory" (withSub "sarFiling"
        (seqU (modKey "timeliness" (varyValueJson off true (2/100) 0 100))
          (seqU (modKey "quality" (varyValueJson off true (2/100) 0 100))
            (modKey "volume" (varyCountJson off false (1/10)))))))
      (withSub "policy"
        (modKey "distribution"
          (modKey "acknowledgment" (varyValueJson off true (25/1000) 0 100))))))

/-- Method `vary_risk_metrics` (lines 177-221). -/
def vary_risk_metrics (off : ℤ) : Upd :=
  withSub "riskMetrics" (seqU
    (withSub "amlMonitoring" (seqU
      (modKey "alertVolume" (modKey "total" (varyCountJson off false (12/100))))
      (withSub "effectiveness"
        (seqU (modKey "modelAccuracy" (varyValueJson off true (3/100) 0 100))
          (seqU (modKey "falsePositiveRate" (varyValueJson off false (3/100) 0 100))
            (modKey "reviewEfficiency" (varyValueJson off true (3/100) 0 100)))))))
    (seqU
      (withSub "fraudMetrics"
        (modKey "losses"
          (modKey "rate" (varyValueJson off false (8/100) (1/10000) (1/100)))))
      (withSub "sanctionsScreening"
        (modKey "coverage"
          (modKey "transactions" (varyValueJson off true (1/100) 95 100))))))

/-- Method `vary_operational_metrics` (lines 223-252). -/
def vary_operational_metrics (off : ℤ) : Upd :=
  withSub "operationalMetrics" (seqU
    (withSub "kycCdd" (seqU
      (modKey "completion" (modKey "new" (varyValueJson off true (25/1000) 0 100)))
      (modKey "periodicReview" (modKey "onTime" (varyValueJson off true (3/100) 0 100)))))
    (withSub "amlMonitoring"
      (modKey "effectiveness"
        (seqU (modKey "modelAccuracy" (varyValueJson off true (25/1000) 0 100))
          (seqU (modKey "falsePositiveRate" (varyValueJson off false (25/1000) 0 100))
            (modKey "reviewEfficiency" (varyValueJson off true (25/1000) 0 100)))))))

/-- Summary part of `vary_audit_findings` (lines 258-281): perturb the
total, perturb the four severity buckets, then recompute the total from the
severity breakdown when it is non-empty. -/
def summary_block (off : ℤ) : Upd :=
  seqU (modKey "total" (varyCountJson off false (15/100)))
    (seqU
      (withSub "bySeverity"
        (seqU (modKey "critical" (varyCountJson off false (2/10)))
          (seqU (modKey "high" (varyCountJson off false (2/10)))
            (seqU (modKey "medium" (varyCountJson off false (15/100)))
              (modKey "low" (varyCountJson off false (15/100)))))))
      recomputeTotal)

/-- Body of `vary_audit_findings` under the `auditFindings` key: summary,
then testing results, then the findings list. -/
def audit_inner (off : ℤ) : Upd :=
  seqU (withSub "summary" (summary_block off))
    (seqU
      (withSub "testing"
        (withSub "results" (modKey "pass" (varyValueJson off true (25/1000) 75 98))))
      (withSub "findings" (varyFindingsList off)))

/-- Method `vary_audit_findings` (lines 254-307). -/
def vary_audit_findings (off : ℤ) : Upd :=
  withSub "auditFindings" (audit_inner off)

/-- Trend table `QUARTER_TRENDS`, identical in both scripts. -/
def QUARTER_TRENDS : List (String × ℤ) :=
  [("q4-2023", -3), ("q1-2024", -2), ("q2-2024", -1), ("q3-2024", 0), ("q4-2024", 1)]

/-- Date table `quarter_dates`, identical in both scripts. -/
def quarter_dates : List (String × String) :=
  [("q4-2023", "2023-12-31"), ("q1-2024", "2024-03-31"), ("q2-2024", "2024-06-30"),
    ("q3-2024", "2024-09-30"), ("q4-2024", "2024-12-31")]

/-- The five variation passes of `QuarterlyDataGenerator.generate`, in source
order. -/
def buSections (off : ℤ) : Upd :=
  seqU (vary_executive_scorecard off)
    (seqU (vary_compliance_metrics off)
      (seqU (vary_risk_metrics off)
        (seqU (vary_operational_metrics off) (vary_audit_findings off))))

/-- The first four variation passes of `QuarterlyDataGenerator.generate`, in
source order (everything before `vary_audit_findings`). -/
def frontBU (off : ℤ) : Upd :=
  seqU (vary_executive_scorecard off)
    (seqU (vary_compliance_metrics off)
      (seqU (vary_risk_metrics off) (vary_operational_metrics off)))

/-- Method `QuarterlyDataGenerator.generate` on a deep copy of one baseline
document: update the `quarter` and `date` metadata, then apply the five
variation passes.  An unknown quarter makes the constructor raise `KeyError`
(`QUARTER_TRENDS[quarter]`), modelled as `none`. -/
def generateBU (baseline : Json) (quarter : String) (g : Rng) :
    Option (Json × Rng) :=
  match List.lookup quarter QUARTER_TRENDS, List.lookup quarter quarter_dates with
  | some off, some d =>
      some (buSections off
        (setField "date" (.str d)
          (setField "quarter" (.str quarter.toUpper) baseline)) g)
  | _, _ => none

/-! ## The enterprise generator (`generate_enterprise_quarterly.py`) -/

/-- Function `generate_quarterly_enterprise_data` (lines 69-122): deep copy,
metadata stamps, then the three guarded scorecard updates. -/
def generate_quarterly_enterprise_data (baseline : Json) (quarter : String)
    (g : Rng) : Option (Json × Rng) :=
  match List.lookup quarter QUARTER_TRENDS, List.lookup quarter quarter_dates with
  | some off, some d =>
      some (modKey "executiveScorecard"
        (seqU (modKey "enterpriseRiskScore" (varyValueJson off true (2/100) 60 95))
          (seqU (modKey "complianceRate" (varyValueJson off true (15/1000) 80 99))
            (modKey "activeFindings" (varyCountJson off false (15/100)))))
        (setField "generatedDate" (.str d)
          (setField "reportingPeriod" (.str quarter.toUpper) baseline)) g)
  | _, _ => none

/-! ## Orchestrators (`main` in each script) -/

/-- Fixed list of target periods, identical in both scripts. -/
def TARGET_QUARTERS : List String := ["q4-2023", "q1-2024", "q2-2024", "q4-2024"]

/-- Generation loop of the enterprise `main`: one output file per target
quarter. -/
def entLoop (baseline : Json) : List String → Rng → Option (List (String × Json) × Rng)
  | [], g => some ([], g)
  | q :: qs, g =>
      match generate_quarterly_enterprise_data baseline q g with
      | some p =>
          match entLoop baseline qs p.2 with
          | some r => some ((("enterprise-dashboard-" ++ q ++ ".json"), p.1) :: r.1, r.2)
          | none => none
      | none => none

/-- Function `main` of `generate_enterprise_quarterly.py` (lines 125-158),
modelled on its filesystem observations: if the baseline file does not exist
it prints an error and returns, writing nothing (second component `true`
records that the error was reported); otherwise it writes one file per
target quarter. -/
def enterprise_main (baseline_exists : Bool) (baseline : Json) (g : Rng) :
    Option (List (String × Json) × Bool) :=
  if baseline_exists = false then some ([], true)
  else
    match entLoop baseline TARGET_QUARTERS g with
    | some p => some (p.1, false)
    | none => none

/-- Function `load_baseline_data` (lines 310-318): raises `FileNotFoundError`
— which no caller catches — when the glob finds no baseline files.  The
uncaught exception is modelled as `Except.error`. -/
def load_baseline_data (baseline_files : List String) : Except String (List String) :=
  if baseline_files.isEmpty then
    Except.error "No baseline data files found"
  else
    Except.ok baseline_files

/-- Inner loop of the business-unit `main`: generate every baseline file for
one quarter.  Output names substitute the baseline-quarter token. -/
def buLoopFiles (quarter : String) :
    List (String × Json) → Rng → Option (List (String × Json) × Rng)
  | [], g => some ([], g)
  | (name, baseline) :: rest, g =>
      match generateBU baseline quarter g with
      | some p =>
          match buLoopFiles quarter rest p.2 with
          | some r =>
              some (((name.replace "-q3-2024" "" ++ "-" ++ quarter ++ ".json"), p.1) :: r.1,
                r.2)
          | none => none
      | none => none

/-- Outer loop of the business-unit `main`: all target quarters. -/
def buLoop (baseline_files : List (String × Json)) :
    List String → Rng → Option (List (String × Json) × Rng)
  | [], g => some ([], g)
  | q :: qs, g =>
      match buLoopFiles q baseline_files g with
      | some p =>
          match buLoop baseline_files qs p.2 with
          | some r => some (p.1 ++ r.1, r.2)
          | none => none
      | none => none

/-- Function `main` of `generate_quarterly_data.py` (lines 347-374): load the
baseline files (raising when there are none), then generate every
(quarter, baseline) pair.  `Except.error` models an exception escaping
`main` uncaught. -/
def bu_main (baseline_files : List (String × Json)) (g : Rng) :
    Except String (List (String × Json)) :=
  match load_baseline_data (baseline_files.map Prod.fst) with
  | .error e => .error e
  | .ok _ =>
      match buLoop baseline_files TARGET_QUARTERS g with
      | some p => .ok p.1
      | none => .error "KeyError"

/-! ## Concrete values used in counterexamples and witnesses -/

/-- A draw stream that always returns 0 (every `random.random()` call yields
the lowest value), starting at cursor 0. -/
def rng0 : Rng := ⟨fun _ => 0, 0⟩

/-- A baseline business-unit document whose findings summary has a total but
no severity breakdown. -/
def c3doc : Json :=
  Json.obj [("auditFindings", Json.obj [("summary", Json.obj [("total", Json.num 10)])])]

/-- The baseline enterprise scorecard of the end-to-end scenario in the
specification. -/
def c9doc : Json :=
  Json.obj [("executiveScorecard", Json.obj
    [("enterpriseRiskScore", Json.num 75), ("complianceRate", Json.num 90),
      ("activeFindings", Json.num 50)])]

/-- A baseline whose severity breakdown has a single bucket (used to witness
the recompute invariant). -/
def c3wDoc : Json :=
  Json.obj [("auditFindings", Json.obj [("summary", Json.obj
    [("bySeverity", Json.obj [("high", Json.num 3)])])])]

/-- Output of the business-unit generator on `c3wDoc` for Q4 2024 under the
all-zeros draw stream. -/
def c3wOut : Json :=
  Json.obj [("auditFindings", Json.obj [("summary", Json.obj
    [("bySeverity", Json.obj [("high", Json.num 2)]), ("total", Json.num 2)])]),
    ("quarter", Json.str ("q4-2024".toUpper)), ("date", Json.str "2024-12-31")]

/-- A baseline whose severity breakdown has a single `critical` bucket. -/
def c10wDoc : Json :=
  Json.obj [("auditFindings", Json.obj [("summary", Json.obj
    [("bySeverity", Json.obj [("critical", Json.num 2)])])])]

/-- Output of the business-unit generator on `c10wDoc` for Q4 2024 under the
all-zeros draw stream. -/
def c10wOut : Json :=
  Json.obj [("auditFindings", Json.obj [("summary", Json.obj
    [("bySeverity", Json.obj [("critical", Json.num 2)]), ("total", Json.num 2)])]),
    ("quarter", Json.str ("q4-2024".toUpper)), ("date", Json.str "2024-12-31")]

/-- Output of the business-unit generator on an empty baseline document. -/
def buEmptyOut : Json :=
  Json.obj [("quarter", Json.str ("q4-2024".toUpper)), ("date", Json.str "2024-12-31")]

/-- Output of the enterprise generator on an empty baseline document. -/
def entEmptyOut : Json :=
  Json.obj [("reportingPeriod", Json.str ("q4-2024".toUpper)),
    ("generatedDate", Json.str "2024-12-31")]

/-! ## Path predicates for frame reasoning

Each walker pass touches a fixed set of paths.  The predicates below name
those sets; they mirror the combinator structure of the passes, so a path is
touched exactly when some perturbed field, metadata field or recomputed
aggregate lies on it (as a prefix or an extension). -/

/-- Paths affected by an update applied under key `k` whose inner update
affects the paths in `T`: the empty path (the object itself changes) and
`k`-prefixed paths affected inside. -/
def kLift (k : String) (T : List Step → Prop) : List Step → Prop := fun p =>
  p = [] ∨ ∃ q, p = Step.key k :: q ∧ T q

/-- Only the field itself. -/
def leafT : List Step → Prop := fun p => p = []

/-- Every path. -/
def trueT : List Step → Prop := fun _ => True

/-- Paths affected by `vary_executive_scorecard`. -/
def touchedES : List Step → Prop :=
  kLift "executiveScorecard" (fun p =>
    kLift "overallScore" (kLift "value" leafT) p ∨
    (kLift "riskMetrics" (fun q =>
        kLift "amlCompliance" leafT q ∨ (kLift "fraudRisk" leafT q ∨
          (kLift "operationalRisk" leafT q ∨ kLift "cyberSecurity" leafT q))) p ∨
      kLift "alerts" (fun q =>
        kLift "critical" leafT q ∨ (kLift "high" leafT q ∨
          (kLift "medium" leafT q ∨ kLift "low" leafT q))) p))

/-- Paths affected by `vary_compliance_metrics`. -/
def touchedCompliance : List Step → Prop :=
  kLift "complianceMetrics" (fun p =>
    kLift "training" (kLift "completion" (kLift "overall" leafT)) p ∨
    (kLift "regulatory" (kLift "sarFiling" (fun q =>
        kLift "timeliness" leafT q ∨ (kLift "quality" leafT q ∨
          kLift "volume" leafT q))) p ∨
      kLift "policy" (kLift "distribution" (kLift "acknowledgment" leafT)) p))

/-- Paths affected by `vary_risk_metrics`. -/
def touchedRisk : List Step → Prop :=
  kLift "riskMetrics" (fun p =>
    kLift "amlMonitoring" (fun q =>
      kLift "alertVolume" (kLift "total" leafT) q ∨
      kLift "effectiveness" (fun r =>
        kLift "modelAccuracy" leafT r ∨ (kLift "falsePositiveRate" leafT r ∨
          kLift "reviewEfficiency" leafT r)) q) p ∨
    (kLift "fraudMetrics" (kLift "losses" (kLift "rate" leafT)) p ∨
      kLift "sanctionsScreening" (kLift "coverage" (kLift "transactions" leafT)) p))

/-- Paths affected by `vary_operational_metrics`. -/
def touchedOps : List Step → Prop :=
  kLift "operationalMetrics" (fun p =>
    kLift "kycCdd" (fun q =>
      kLift "completion" (kLift "new" leafT) q ∨
      kLift "periodicReview" (kLift "onTime" leafT) q) p ∨
    kLift "amlMonitoring" (kLift "effectiveness" (fun q =>
      kLift "modelAccuracy" leafT q ∨ (kLift "falsePositiveRate" leafT q ∨
        kLift "reviewEfficiency" leafT q))) p)

/-- Paths affected by `vary_audit_findings` (the perturbed counts, the
recomputed total, the testing pass rate, and the status field of each
finding record). -/
def touchedAudit : List Step → Prop :=
  kLift "auditFindings" (fun p =>
    kLift "summary" (fun q =>
      kLift "total" leafT q ∨
      (kLift "bySeverity" (fun r =>
          kLift "critical" leafT r ∨ (kLift "high" leafT r ∨
            (kLift "medium" leafT r ∨ kLift "low" leafT r))) q ∨
        kLift "total" trueT q)) p ∨
    (kLift "testing" (kLift "results" (kLift "pass" leafT)) p ∨
      kLift "findings" (fun q =>
        q = [] ∨ ∃ n r, q = Step.idx n :: r ∧ kLift "status" trueT r) p))

/-- All paths the business-unit generator may change: the two metadata
fields plus the five variation passes. -/
def touchedBU : List Step → Prop := fun p =>
  kLift "quarter" trueT p ∨ (kLift "date" trueT p ∨
    (touchedES p ∨ (touchedCompliance p ∨
      (touchedRisk p ∨ (touchedOps p ∨ touchedAudit p)))))

/-- All paths the enterprise generator may change. -/
def touchedENT : List Step → Prop := fun p =>
  kLift "reportingPeriod" trueT p ∨ (kLift "generatedDate" trueT p ∨
    kLift "executiveScorecard" (fun q =>
      kLift "enterpriseRiskScore" leafT q ∨ (kLift "complianceRate" leafT q ∨
        kLift "activeFindings" leafT q)) p)

/-- Keys the business-unit generator may add when absent from the baseline:
the two metadata fields and the recomputed severity total. -/
def addedBU : List Step → Prop := fun p =>
  p = [Step.key "quarter"] ∨ (p = [Step.key "date"] ∨
    p = [Step.key "auditFindings", Step.key "summary", Step.key "total"])

/-- Paths strictly below a value the business-unit generator overwrites
wholesale (metadata strings and the recomputed total); only these can
disappear from the document. -/
def replacedBU : List Step → Prop := fun p =>
  (∃ q, p = Step.key "quarter" :: q ∧ q ≠ []) ∨
  ((∃ q, p = Step.key "date" :: q ∧ q ≠ []) ∨
    ∃ q, p = Step.key "auditFindings" :: Step.key "summary" :: Step.key "total" :: q ∧
      q ≠ [])

/-- Keys the enterprise generator may add when absent from the baseline. -/
def addedENT : List Step → Prop := fun p =>
  p = [Step.key "reportingPeriod"] ∨ p = [Step.key "generatedDate"]

/-- Paths strictly below a value the enterprise generator overwrites
wholesale. -/
def replacedENT : List Step → Prop := fun p =>
  (∃ q, p = Step.key "reportingPeriod" :: q ∧ q ≠ []) ∨
    ∃ q, p = Step.key "generatedDate" :: q ∧ q ≠ []

/-- An update leaves every path outside `T` unchanged. -/
def Frames (f : Upd) (T : List Step → Prop) : Prop :=
  ∀ j g p, ¬ T p → getPath ((f j g).1) p = getPath j p

/-- An update creates no path outside `A`. -/
def AddsOnly (f : Upd) (A : List Step → Prop) : Prop :=
  ∀ j g p, getPath ((f j g).1) p ≠ none → getPath j p ≠ none ∨ A p

/-- An update destroys no path outside `R`. -/
def KeepsExcept (f : Upd) (R : List Step → Prop) : Prop :=
  ∀ j g p, getPath j p ≠ none → getPath ((f j g).1) p ≠ none ∨ R p

/-! Basic facts about `pyRound`: it is within one half of its argument. -/

theorem pyRound_le (q : ℚ) : (pyRound q : ℚ) ≤ q + 1/2 := by
  have hfl : (⌊q⌋ : ℚ) ≤ q := Int.floor_le q
  have hfu : q < (⌊q⌋ : ℚ) + 1 := Int.lt_floor_add_one q
  unfold pyRound
  split
  · push_cast; linarith
  · split
    · push_cast; linarith
    · split <;> (push_cast; linarith)

theorem le_pyRound (q : ℚ) : q - 1/2 ≤ (pyRound q : ℚ) := by
  have hfl : (⌊q⌋ : ℚ) ≤ q := Int.floor_le q
  have hfu : q < (⌊q⌋ : ℚ) + 1 := Int.lt_floor_add_one q
  unfold pyRound
  split
  · push_cast; linarith
  · split
    · push_cast; linarith
    · split <;> (push_cast; linarith)

/-- C1: for every numeric input and every configuration with
`min_val ≤ max_val`, the result of `vary_value` lies in the closed interval
`[min_val, max_val]`, for every trend offset, trend direction, volatility and
random draw (the clamp `max(min_val, min(max_val, varied))` guarantees this
for any intermediate value). -/
theorem vary_value_mem_Icc (v : ℚ) (trend_offset : ℤ) (improvement_trend : Bool)
    (volatility min_val max_val : ℚ) (g : Rng) (h : min_val ≤ max_val) :
    ∃ w : ℚ,
      (vary_value (some v) trend_offset improvement_trend volatility min_val max_val g).1
        = some w ∧ min_val ≤ w ∧ w ≤ max_val := by
  refine ⟨_, rfl, le_max_left _ _, ?_⟩
  exact max_le h (min_le_left _ _)

/-- Witness for C1 at a concrete input. -/
theorem vary_value_mem_Icc_witness :
    (0 : ℚ) ≤ 100 ∧
      ∃ w : ℚ,
        (vary_value (some 75) (-3) true (3/100) 0 100 ⟨fun _ => 0, 0⟩).1
          = some w ∧ 0 ≤ w ∧ w ≤ 100 :=
  ⟨by norm_num, vary_value_mem_Icc 75 (-3) true (3/100) 0 100 ⟨fun _ => 0, 0⟩ (by norm_num)⟩

/-- C2: for every non-null numeric value, `vary_value` computes exactly
`value * (1 + trend + noise)` before clamping, where
`trend = trend_offset * 0.015 * (+1 if improvement_trend else -1)` and
`noise` is the uniform draw from `[-volatility, volatility]` consumed by the
call (here exhibited explicitly, lying in that interval whenever the unit
draw is in `[0, 1]` and the volatility is nonnegative). -/
theorem vary_value_formula (v : ℚ) (trend_offset : ℤ) (improvement_trend : Bool)
    (volatility min_val max_val : ℚ) (g : Rng)
    (hvol : 0 ≤ volatility) (h0 : 0 ≤ g.draws g.idx) (h1 : g.draws g.idx ≤ 1) :
    ∃ noise : ℚ, -volatility ≤ noise ∧ noise ≤ volatility ∧
      (vary_value (some v) trend_offset improvement_trend volatility min_val max_val g).1
        = some (max min_val (min max_val
            (v * (1 + (trend_offset : ℚ) * (15/1000) *
              (if improvement_trend then 1 else -1) + noise)))) := by
  refine ⟨-volatility + (volatility - -volatility) * g.draws g.idx, by nlinarith, by nlinarith, ?_⟩
  cases improvement_trend <;> simp [vary_value, uniform, Rng.next]

/-- Witness for C2 at a concrete input. -/
theorem vary_value_formula_witness :
    ((0 : ℚ) ≤ 3/100 ∧ (0 : ℚ) ≤ Rng.draws ⟨fun _ => 1/2, 0⟩ 0 ∧
        Rng.draws ⟨fun _ => (1:ℚ)/2, 0⟩ 0 ≤ 1) ∧
      ∃ noise : ℚ, -(3/100) ≤ noise ∧ noise ≤ 3/100 ∧
        (vary_value (some 80) 2 false (3/100) 0 100 ⟨fun _ => 1/2, 0⟩).1
          = some (max 0 (min 100
              (80 * (1 + ((2 : ℤ) : ℚ) * (15/1000) * (if false then 1 else -1) + noise)))) :=
  ⟨⟨by norm_num, by norm_num, by norm_num⟩,
    vary_value_formula 80 2 false (3/100) 0 100 ⟨fun _ => 1/2, 0⟩
      (by norm_num) (by norm_num) (by norm_num)⟩

/-- C5: perturbing an absent (`None`) value returns `None` for both
`vary_value` and `vary_count`; for every non-null input `vary_count` returns
an integer; and `vary_count 0 = 0` (zero passes through unperturbed). -/
theorem vary_none_and_count_integer (trend_offset : ℤ) (improvement_trend : Bool)
    (volatility min_val max_val c : ℚ) (g : Rng) :
    (vary_value none trend_offset improvement_trend volatility min_val max_val g).1 = none ∧
    (vary_count none trend_offset improvement_trend volatility g).1 = none ∧
    (∃ z : ℤ, (vary_count (some c) trend_offset improvement_trend volatility g).1
        = some (z : ℚ)) ∧
    (vary_count (some 0) trend_offset improvement_trend volatility g).1 = some 0 := by
  refine ⟨rfl, rfl, ?_, by simp [vary_count]⟩
  by_cases hc : c = 0
  · exact ⟨0, by simp [vary_count, hc]⟩
  · exact ⟨pyRound (max 0 (min 999999
        (c * (1 + (trend_offset : ℚ) * (15/1000) * (if improvement_trend then 1 else -1)
          + (uniform (-volatility) volatility g).1)))),
      by simp [vary_count, hc, vary_value]⟩

/-! ## Association-list and path lemmas -/

@[simp]
theorem getKey_setKey_self (fs : List (String × Json)) (k : String) (v : Json) :
    getKey (setKey fs k v) k = some v := by
  induction fs with
  | nil => simp [setKey, getKey]
  | cons hd tl ih =>
      obtain ⟨k₀, v₀⟩ := hd
      by_cases h : k₀ = k <;> simp [setKey, getKey, h, ih]

theorem getKey_setKey_ne (fs : List (String × Json)) (k s : String) (v : Json)
    (h : s ≠ k) : getKey (setKey fs k v) s = getKey fs s := by
  induction fs with
  | nil =>
      simp only [setKey, getKey]
      rw [if_neg (fun hh => h hh.symm)]
  | cons hd tl ih =>
      obtain ⟨k₀, v₀⟩ := hd
      by_cases hk : k₀ = k
      · subst hk
        simp only [setKey, if_pos rfl, getKey]
        rw [if_neg (fun hh => h hh.symm), if_neg (fun hh => h hh.symm)]
      · simp only [setKey, if_neg hk, getKey]
        by_cases hs : k₀ = s
        · rw [if_pos hs, if_pos hs]
        · rw [if_neg hs, if_neg hs, ih]

theorem setKey_setKey (fs : List (String × Json)) (k : String) (v w : Json) :
    setKey (setKey fs k v) k w = setKey fs k w := by
  induction fs with
  | nil => simp [setKey]
  | cons hd tl ih =>
      obtain ⟨k₀, v₀⟩ := hd
      by_cases h : k₀ = k <;> simp [setKey, h, ih]

theorem setKey_of_getKey (fs : List (String × Json)) (k : String) (v : Json)
    (h : getKey fs k = some v) : setKey fs k v = fs := by
  induction fs with
  | nil => simp [getKey] at h
  | cons hd tl ih =>
      obtain ⟨k₀, v₀⟩ := hd
      by_cases hk : k₀ = k
      · subst hk
        simp [getKey] at h
        simp [setKey, h]
      · simp [getKey, hk] at h
        simp [setKey, hk, ih h]

@[simp]
theorem getPath_nil (j : Json) : getPath j [] = some j := by cases j <;> rfl

@[simp]
theorem getPath_null_cons (st : Step) (p : List Step) :
    getPath .null (st :: p) = none := by cases st <;> rfl

@[simp]
theorem getPath_bool_cons (b : Bool) (st : Step) (p : List Step) :
    getPath (.bool b) (st :: p) = none := by cases st <;> rfl

@[simp]
theorem getPath_num_cons (q : ℚ) (st : Step) (p : List Step) :
    getPath (.num q) (st :: p) = none := by cases st <;> rfl

@[simp]
theorem getPath_str_cons (s : String) (st : Step) (p : List Step) :
    getPath (.str s) (st :: p) = none := by cases st <;> rfl

@[simp]
theorem getPath_obj_idx (fs : List (String × Json)) (n : ℕ) (p : List Step) :
    getPath (.obj fs) (.idx n :: p) = none := rfl

@[simp]
theorem getPath_arr_key (xs : List Json) (s : String) (p : List Step) :
    getPath (.arr xs) (.key s :: p) = none := rfl

theorem getPath_obj_key (fs : List (String × Json)) (s : String) (p : List Step) :
    getPath (.obj fs) (.key s :: p) = Option.bind (getKey fs s) (fun v => getPath v p) := by
  cases h : getKey fs s <;> simp [getPath, h]

theorem getPath_arr_idx (xs : List Json) (n : ℕ) (p : List Step) :
    getPath (.arr xs) (.idx n :: p) = Option.bind (xs.get? n) (fun v => getPath v p) := by
  cases h : xs.get? n <;> (simp only [getPath]; rw [h]) <;> rfl

/-! ## Frame lemmas: which paths each combinator can change -/

theorem getPath_obj_setKey_ne (fs : List (String × Json)) (k : String) (v : Json)
    (p : List Step) (hnil : p ≠ []) (hk : ∀ q, p ≠ Step.key k :: q) :
    getPath (.obj (setKey fs k v)) p = getPath (.obj fs) p := by
  cases p with
  | nil => exact absurd rfl hnil
  | cons st rest =>
      cases st with
      | idx n => simp
      | key s =>
          by_cases hs : s = k
          · exact absurd (by rw [hs]) (hk rest)
          · rw [getPath_obj_key, getPath_obj_key, getKey_setKey_ne _ _ _ _ hs]

theorem frames_mono {f : Upd} {T T₂ : List Step → Prop} (hf : Frames f T)
    (h : ∀ p, T p → T₂ p) : Frames f T₂ :=
  fun j g p hp => hf j g p (fun t => hp (h p t))

theorem frames_seqU {f h : Upd} {T₁ T₂ : List Step → Prop}
    (hf : Frames f T₁) (hh : Frames h T₂) :
    Frames (seqU f h) (fun p => T₁ p ∨ T₂ p) := by
  intro j g p hp
  have h1 : ¬ T₁ p := fun t => hp (Or.inl t)
  have h2 : ¬ T₂ p := fun t => hp (Or.inr t)
  show getPath ((h (f j g).1 (f j g).2).1) p = getPath j p
  rw [hh _ _ _ h2, hf _ _ _ h1]

theorem frames_modKey {f : Upd} {T : List Step → Prop} (k : String)
    (hf : Frames f T) : Frames (modKey k f) (kLift k T) := by
  intro j g p hp
  have hnil : p ≠ [] := fun e => hp (Or.inl e)
  have hkey : ∀ q, p = Step.key k :: q → ¬ T q := fun q e t => hp (Or.inr ⟨q, e, t⟩)
  cases j with
  | null => rfl
  | bool b => rfl
  | num q => rfl
  | str s => rfl
  | arr xs => rfl
  | obj fs =>
      cases hv : getKey fs k with
      | none => simp [modKey, hv]
      | some v =>
          simp only [modKey, hv]
          cases p with
          | nil => exact absurd rfl hnil
          | cons st rest =>
              cases st with
              | idx n => simp
              | key s =>
                  by_cases hs : s = k
                  · subst hs
                    rw [getPath_obj_key, getPath_obj_key, getKey_setKey_self, hv]
                    simpa using hf v g rest (hkey rest rfl)
                  · rw [getPath_obj_key, getPath_obj_key, getKey_setKey_ne _ _ _ _ hs]

theorem frames_withSub {f : Upd} {T : List Step → Prop} (k : String)
    (hf : Frames f T) : Frames (withSub k f) (kLift k T) := by
  intro j g p hp
  have hnil : p ≠ [] := fun e => hp (Or.inl e)
  have hkey : ∀ q, p = Step.key k :: q → ¬ T q := fun q e t => hp (Or.inr ⟨q, e, t⟩)
  cases j with
  | null => rfl
  | bool b => rfl
  | num q => rfl
  | str s => rfl
  | arr xs => rfl
  | obj fs =>
      cases hv : getKey fs k with
      | none => simp [withSub, hv]
      | some v =>
          simp only [withSub, hv]
          cases p with
          | nil => exact absurd rfl hnil
          | cons st rest =>
              cases st with
              | idx n => simp
              | key s =>
                  by_cases hs : s = k
                  · subst hs
                    rw [getPath_obj_key, getPath_obj_key, getKey_setKey_self, hv]
                    simpa using hf v g rest (hkey rest rfl)
                  · rw [getPath_obj_key, getPath_obj_key, getKey_setKey_ne _ _ _ _ hs]

theorem frames_setField (k : String) (v : Json) (j : Json) (p : List Step)
    (hp : ¬ kLift k trueT p) : getPath (setField k v j) p = getPath j p := by
  have hnil : p ≠ [] := fun e => hp (Or.inl e)
  have hkey : ∀ q, p ≠ Step.key k :: q := fun q e => hp (Or.inr ⟨q, e, trivial⟩)
  cases j with
  | null => rfl
  | bool b => rfl
  | num q => rfl
  | str s => rfl
  | arr xs => rfl
  | obj fs => exact getPath_obj_setKey_ne fs k v p hnil hkey

theorem frames_varyValueJson (off : ℤ) (imp : Bool) (vol lo hi : ℚ) :
    Frames (varyValueJson off imp vol lo hi) leafT := by
  intro j g p hp
  have hnil : p ≠ [] := hp
  cases j with
  | null => rfl
  | bool b =>
      cases p with
      | nil => exact absurd rfl hnil
      | cons st rest => simp [varyValueJson, asNum, vary_value]
  | num q =>
      cases p with
      | nil => exact absurd rfl hnil
      | cons st rest => simp [varyValueJson, asNum, vary_value]
  | str s => rfl
  | arr xs => rfl
  | obj fs => rfl

theorem frames_varyCountJson (off : ℤ) (imp : Bool) (vol : ℚ) :
    Frames (varyCountJson off imp vol) leafT := by
  intro j g p hp
  have hnil : p ≠ [] := hp
  cases j with
  | null => rfl
  | bool b =>
      cases p with
      | nil => exact absurd rfl hnil
      | cons st rest =>
          by_cases hb : (if b then (1:ℚ) else 0) = 0 <;>
            simp [varyCountJson, asNum, vary_count, vary_value, hb]
  | num q =>
      cases p with
      | nil => exact absurd rfl hnil
      | cons st rest =>
          by_cases hq : q = 0 <;>
            simp [varyCountJson, asNum, vary_count, vary_value, hq]
  | str s => rfl
  | arr xs => rfl
  | obj fs => rfl

theorem frames_recomputeTotal : Frames recomputeTotal (kLift "total" trueT) := by
  intro j g p hp
  have hnil : p ≠ [] := fun e => hp (Or.inl e)
  have hkey : ∀ q, p ≠ Step.key "total" :: q := fun q e => hp (Or.inr ⟨q, e, trivial⟩)
  cases j with
  | null => rfl
  | bool b => rfl
  | num q => rfl
  | str s => rfl
  | arr xs => rfl
  | obj fs =>
      simp only [recomputeTotal]
      cases hv : getKey fs "bySeverity" with
      | none => rfl
      | some v =>
          cases v with
          | obj sevs =>
              by_cases he : sevs.isEmpty
              · simp [he]
              · cases hs : sumVals sevs with
                | none => simp [he, hs]
                | some t =>
                    simp only [he, hs, if_neg he]
                    exact getPath_obj_setKey_ne fs "total" (.num t) p hnil hkey
          | null => rfl
          | bool b => rfl
          | num q => rfl
          | str s => rfl
          | arr xs => rfl

theorem statusIs_iff (fs : List (String × Json)) (s : String) :
    statusIs fs s = true ↔ getKey fs "status" = some (.str s) := by
  unfold statusIs
  cases h : getKey fs "status" with
  | none => simp
  | some v => cases v <;> simp [eq_comm]

/-- The fields produced by the first flip block: either unchanged, or the
present string-valued status replaced by another string. -/
theorem flipOpen_fields (off : ℤ) (fs : List (String × Json)) (g : Rng) :
    (flipOpen off fs g).1 = fs ∨ ∃ t u, getKey fs "status" = some (.str t) ∧
      (flipOpen off fs g).1 = setKey fs "status" (.str u) := by
  unfold flipOpen
  by_cases h1 : 0 < off ∧ statusIs fs "Open" = true
  · have hop : getKey fs "status" = some (.str "Open") := (statusIs_iff _ _).1 h1.2
    rw [if_pos h1]
    by_cases hd : (g.next).1 < 3/10
    · exact Or.inr ⟨"Open", "Closed", hop, by simp [hd]⟩
    · exact Or.inl (by simp [hd])
  · exact Or.inl (by rw [if_neg h1])

/-- The fields produced by the second flip block. -/
theorem flipClosed_fields (off : ℤ) (fs : List (String × Json)) (g : Rng) :
    (flipClosed off fs g).1 = fs ∨ ∃ t u, getKey fs "status" = some (.str t) ∧
      (flipClosed off fs g).1 = setKey fs "status" (.str u) := by
  unfold flipClosed
  by_cases h1 : off < 0 ∧ statusIs fs "Closed" = true
  · have hcl : getKey fs "status" = some (.str "Closed") := (statusIs_iff _ _).1 h1.2
    rw [if_pos h1]
    by_cases hd : (g.next).1 < 2/10
    · exact Or.inr ⟨"Closed", "Open", hcl, by simp [hd]⟩
    · exact Or.inl (by simp [hd])
  · exact Or.inl (by rw [if_neg h1])

/-- The fields produced by one `flipStatus` step: either unchanged, or the
present string-valued status replaced by another string. -/
theorem flipStatus_fields (off : ℤ) (fs : List (String × Json)) (g : Rng) :
    ∃ fs₂ g₂, flipStatus off (.obj fs) g = (.obj fs₂, g₂) ∧
      (fs₂ = fs ∨ ∃ t u, getKey fs "status" = some (.str t) ∧
        fs₂ = setKey fs "status" (.str u)) := by
  refine ⟨_, _, rfl, ?_⟩
  rcases flipOpen_fields off fs g with h1 | ⟨t, u, ht, h1⟩
  · rw [h1]
    rcases flipClosed_fields off fs (flipOpen off fs g).2 with h2 | ⟨t₂, u₂, ht₂, h2⟩
    · exact Or.inl h2
    · exact Or.inr ⟨t₂, u₂, ht₂, h2⟩
  · rw [h1]
    rcases flipClosed_fields off (setKey fs "status" (.str u)) (flipOpen off fs g).2 with
      h2 | ⟨t₂, u₂, ht₂, h2⟩
    · exact Or.inr ⟨t, u, ht, h2⟩
    · exact Or.inr ⟨t, u₂, ht, by rw [h2, setKey_setKey]⟩

theorem frames_flipStatus (off : ℤ) : Frames (flipStatus off) (kLift "status" trueT) := by
  intro j g p hp
  have hnil : p ≠ [] := fun e => hp (Or.inl e)
  have hkey : ∀ q, p ≠ Step.key "status" :: q := fun q e => hp (Or.inr ⟨q, e, trivial⟩)
  cases j with
  | null => rfl
  | bool b => rfl
  | num q => rfl
  | str s => rfl
  | arr xs => rfl
  | obj fs =>
      obtain ⟨fs₂, g₂, heq, hcase⟩ := flipStatus_fields off fs g
      rw [heq]
      rcases hcase with h | ⟨t, u, _, h⟩
      · rw [h]
      · rw [h]
        exact getPath_obj_setKey_ne fs "status" (.str u) p hnil hkey

theorem mapRng_length (f : Upd) (xs : List Json) (g : Rng) :
    ((mapRng f xs g).1).length = xs.length := by
  induction xs generalizing g with
  | nil => rfl
  | cons x xs ih => simp [mapRng, ih]

theorem mapRng_get? (f : Upd) (xs : List Json) (g : Rng) (n : ℕ) :
    ∃ g₂, ((mapRng f xs g).1).get? n = (xs.get? n).map (fun x => (f x g₂).1) := by
  induction xs generalizing g n with
  | nil => exact ⟨g, by simp [mapRng]⟩
  | cons x xs ih =>
      cases n with
      | zero => exact ⟨g, by simp [mapRng]⟩
      | succ n =>
          obtain ⟨g₂, hg⟩ := ih ((f x g).2) n
          exact ⟨g₂, by simpa [mapRng] using hg⟩

theorem frames_varyFindingsList (off : ℤ) :
    Frames (varyFindingsList off)
      (fun p => p = [] ∨ ∃ n r, p = Step.idx n :: r ∧ kLift "status" trueT r) := by
  intro j g p hp
  have hnil : p ≠ [] := fun e => hp (Or.inl e)
  cases j with
  | null => rfl
  | bool b => rfl
  | num q => rfl
  | str s => rfl
  | obj fs => rfl
  | arr xs =>
      cases p with
      | nil => exact absurd rfl hnil
      | cons st rest =>
          cases st with
          | key s => simp [varyFindingsList]
          | idx n =>
              have hr : ¬ kLift "status" trueT rest :=
                fun t => hp (Or.inr ⟨n, rest, rfl, t⟩)
              show getPath (.arr (mapRng (flipStatus off) xs g).1) (.idx n :: rest) = _
              rw [getPath_arr_idx, getPath_arr_idx]
              obtain ⟨g₂, hg⟩ := mapRng_get? (flipStatus off) xs g n
              rw [hg]
              cases hx : xs.get? n with
              | none => rfl
              | some x => simpa using frames_flipStatus off x g₂ rest hr

/-! Per-pass frame lemmas: each pass changes only its touched paths. -/

theorem frames_ES (off : ℤ) : Frames (vary_executive_scorecard off) touchedES :=
  frames_withSub _ (frames_seqU
    (frames_modKey _ (frames_modKey _ (frames_varyValueJson _ _ _ _ _)))
    (frames_seqU
      (frames_withSub _
        (frames_seqU (frames_modKey _ (frames_varyValueJson _ _ _ _ _))
          (frames_seqU (frames_modKey _ (frames_varyValueJson _ _ _ _ _))
            (frames_seqU (frames_modKey _ (frames_varyValueJson _ _ _ _ _))
              (frames_modKey _ (frames_varyValueJson _ _ _ _ _))))))
      (frames_withSub _
        (frames_seqU (frames_modKey _ (frames_varyCountJson _ _ _))
          (frames_seqU (frames_modKey _ (frames_varyCountJson _ _ _))
            (frames_seqU (frames_modKey _ (frames_varyCountJson _ _ _))
              (frames_modKey _ (frames_varyCountJson _ _ _))))))))

theorem frames_Compliance (off : ℤ) :
    Frames (vary_compliance_metrics off) touchedCompliance :=
  frames_withSub _ (frames_seqU
    (frames_withSub _ (frames_modKey _ (frames_modKey _ (frames_varyValueJson _ _ _ _ _))))
    (frames_seqU
      (frames_withSub _ (frames_withSub _
        (frames_seqU (frames_modKey _ (frames_varyValueJson _ _ _ _ _))
          (frames_seqU (frames_modKey _ (frames_varyValueJson _ _ _ _ _))
            (frames_modKey _ (frames_varyCountJson _ _ _))))))
      (frames_withSub _
        (frames_modKey _ (frames_modKey _ (frames_varyValueJson _ _ _ _ _))))))

theorem frames_Risk (off : ℤ) : Frames (vary_risk_metrics off) touchedRisk :=
  frames_withSub _ (frames_seqU
    (frames_withSub _ (frames_seqU
      (frames_modKey _ (frames_modKey _ (frames_varyCountJson _ _ _)))
      (frames_withSub _
        (frames_seqU (frames_modKey _ (frames_varyValueJson _ _ _ _ _))
          (frames_seqU (frames_modKey _ (frames_varyValueJson _ _ _ _ _))
            (frames_modKey _ (frames_varyValueJson _ _ _ _ _)))))))
    (frames_seqU
      (frames_withSub _ (frames_modKey _ (frames_modKey _ (frames_varyValueJson _ _ _ _ _))))
      (frames_withSub _ (frames_modKey _ (frames_modKey _ (frames_varyValueJson _ _ _ _ _))))))

theorem frames_Ops (off : ℤ) : Frames (vary_operational_metrics off) touchedOps :=
  frames_withSub _ (frames_seqU
    (frames_withSub _ (frames_seqU
      (frames_modKey _ (frames_modKey _ (frames_varyValueJson _ _ _ _ _)))
      (frames_modKey _ (frames_modKey _ (frames_varyValueJson _ _ _ _ _)))))
    (frames_withSub _ (frames_modKey _
      (frames_seqU (frames_modKey _ (frames_varyValueJson _ _ _ _ _))
        (frames_seqU (frames_modKey _ (frames_varyValueJson _ _ _ _ _))
          (frames_modKey _ (frames_varyValueJson _ _ _ _ _)))))))

theorem frames_Audit (off : ℤ) : Frames (vary_audit_findings off) touchedAudit :=
  frames_withSub _ (frames_seqU
    (frames_withSub _ (frames_seqU
      (frames_modKey _ (frames_varyCountJson _ _ _))
      (frames_seqU
        (frames_withSub _
          (frames_seqU (frames_modKey _ (frames_varyCountJson _ _ _))
            (frames_seqU (frames_modKey _ (frames_varyCountJson _ _ _))
              (frames_seqU (frames_modKey _ (frames_varyCountJson _ _ _))
                (frames_modKey _ (frames_varyCountJson _ _ _))))))
        frames_recomputeTotal)))
    (frames_seqU
      (frames_withSub _ (frames_withSub _ (frames_modKey _ (frames_varyValueJson _ _ _ _ _))))
      (frames_withSub _ (frames_varyFindingsList off))))

theorem frames_buSections (off : ℤ) :
    Frames (buSections off) (fun p => touchedES p ∨ (touchedCompliance p ∨
      (touchedRisk p ∨ (touchedOps p ∨ touchedAudit p)))) :=
  frames_seqU (frames_ES off) (frames_seqU (frames_Compliance off)
    (frames_seqU (frames_Risk off) (frames_seqU (frames_Ops off) (frames_Audit off))))

/-! ## Key-creation and key-preservation lemmas -/

theorem addsOnly_mono {f : Upd} {A A₂ : List Step → Prop} (hf : AddsOnly f A)
    (h : ∀ p, A p → A₂ p) : AddsOnly f A₂ := by
  intro j g p hp
  rcases hf j g p hp with h₁ | h₁
  · exact Or.inl h₁
  · exact Or.inr (h p h₁)

theorem keeps_mono {f : Upd} {R R₂ : List Step → Prop} (hf : KeepsExcept f R)
    (h : ∀ p, R p → R₂ p) : KeepsExcept f R₂ := by
  intro j g p hp
  rcases hf j g p hp with h₁ | h₁
  · exact Or.inl h₁
  · exact Or.inr (h p h₁)

theorem addsOnly_seqU {f h : Upd} {A₁ A₂ : List Step → Prop}
    (hf : AddsOnly f A₁) (hh : AddsOnly h A₂) :
    AddsOnly (seqU f h) (fun p => A₁ p ∨ A₂ p) := by
  intro j g p hp
  have hp₂ : getPath ((h (f j g).1 (f j g).2).1) p ≠ none := hp
  rcases hh _ _ _ hp₂ with h₂ | h₂
  · rcases hf _ _ _ h₂ with h₁ | h₁
    · exact Or.inl h₁
    · exact Or.inr (Or.inl h₁)
  · exact Or.inr (Or.inr h₂)

theorem keeps_seqU {f h : Upd} {R₁ R₂ : List Step → Prop}
    (hf : KeepsExcept f R₁) (hh : KeepsExcept h R₂) :
    KeepsExcept (seqU f h) (fun p => R₁ p ∨ R₂ p) := by
  intro j g p hp
  rcases hf j g p hp with h₁ | h₁
  · rcases hh (f j g).1 (f j g).2 p h₁ with h₂ | h₂
    · exact Or.inl h₂
    · exact Or.inr (Or.inr h₂)
  · exact Or.inr (Or.inl h₁)

theorem addsOnly_modKey {f : Upd} {A : List Step → Prop} (k : String)
    (hf : AddsOnly f A) :
    AddsOnly (modKey k f) (fun p => ∃ q, p = Step.key k :: q ∧ A q) := by
  intro j g p hp
  cases j with
  | null => exact Or.inl hp
  | bool b => exact Or.inl hp
  | num q => exact Or.inl hp
  | str s => exact Or.inl hp
  | arr xs => exact Or.inl hp
  | obj fs =>
      cases hv : getKey fs k with
      | none =>
          simp only [modKey, hv] at hp
          exact Or.inl hp
      | some v =>
          simp only [modKey, hv] at hp
          cases p with
          | nil => exact Or.inl (by simp)
          | cons st rest =>
              cases st with
              | idx n => simp at hp
              | key s =>
                  by_cases hs : s = k
                  · subst hs
                    rw [getPath_obj_key, getKey_setKey_self] at hp
                    simp only [Option.some_bind] at hp
                    rcases hf v g rest hp with h₂ | h₂
                    · refine Or.inl ?_
                      rw [getPath_obj_key, hv]
                      simpa using h₂
                    · exact Or.inr ⟨rest, rfl, h₂⟩
                  · rw [getPath_obj_key, getKey_setKey_ne _ _ _ _ hs] at hp
                    refine Or.inl ?_
                    rw [getPath_obj_key]
                    exact hp

theorem keeps_modKey {f : Upd} {R : List Step → Prop} (k : String)
    (hf : KeepsExcept f R) :
    KeepsExcept (modKey k f) (fun p => ∃ q, p = Step.key k :: q ∧ R q) := by
  intro j g p hp
  cases j with
  | null => exact Or.inl hp
  | bool b => exact Or.inl hp
  | num q => exact Or.inl hp
  | str s => exact Or.inl hp
  | arr xs => exact Or.inl hp
  | obj fs =>
      cases hv : getKey fs k with
      | none =>
          refine Or.inl ?_
          simp only [modKey, hv]
          exact hp
      | some v =>
          simp only [modKey, hv]
          cases p with
          | nil => exact Or.inl (by simp)
          | cons st rest =>
              cases st with
              | idx n => simp at hp
              | key s =>
                  by_cases hs : s = k
                  · subst hs
                    rw [getPath_obj_key, hv] at hp
                    simp only [Option.some_bind] at hp
                    rcases hf v g rest hp with h₂ | h₂
                    · refine Or.inl ?_
                      rw [getPath_obj_key, getKey_setKey_self]
                      simpa using h₂
                    · exact Or.inr ⟨rest, rfl, h₂⟩
                  · rw [getPath_obj_key] at hp
                    refine Or.inl ?_
                    rw [getPath_obj_key, getKey_setKey_ne _ _ _ _ hs]
                    exact hp

theorem addsOnly_withSub {f : Upd} {A : List Step → Prop} (k : String)
    (hf : AddsOnly f A) :
    AddsOnly (withSub k f) (fun p => ∃ q, p = Step.key k :: q ∧ A q) := by
  intro j g p hp
  cases j with
  | null => exact Or.inl hp
  | bool b => exact Or.inl hp
  | num q => exact Or.inl hp
  | str s => exact Or.inl hp
  | arr xs => exact Or.inl hp
  | obj fs =>
      cases hv : getKey fs k with
      | none =>
          simp only [withSub, hv] at hp
          exact Or.inl hp
      | some v =>
          simp only [withSub, hv] at hp
          cases p with
          | nil => exact Or.inl (by simp)
          | cons st rest =>
              cases st with
              | idx n => simp at hp
              | key s =>
                  by_cases hs : s = k
                  · subst hs
                    rw [getPath_obj_key, getKey_setKey_self] at hp
                    simp only [Option.some_bind] at hp
                    rcases hf v g rest hp with h₂ | h₂
                    · refine Or.inl ?_
                      rw [getPath_obj_key, hv]
                      simpa using h₂
                    · exact Or.inr ⟨rest, rfl, h₂⟩
                  · rw [getPath_obj_key, getKey_setKey_ne _ _ _ _ hs] at hp
                    refine Or.inl ?_
                    rw [getPath_obj_key]
                    exact hp

theorem keeps_withSub {f : Upd} {R : List Step → Prop} (k : String)
    (hf : KeepsExcept f R) :
    KeepsExcept (withSub k f) (fun p => ∃ q, p = Step.key k :: q ∧ R q) := by
  intro j g p hp
  cases j with
  | null => exact Or.inl hp
  | bool b => exact Or.inl hp
  | num q => exact Or.inl hp
  | str s => exact Or.inl hp
  | arr xs => exact Or.inl hp
  | obj fs =>
      cases hv : getKey fs k with
      | none =>
          refine Or.inl ?_
          simp only [withSub, hv]
          exact hp
      | some v =>
          simp only [withSub, hv]
          cases p with
          | nil => exact Or.inl (by simp)
          | cons st rest =>
              cases st with
              | idx n => simp at hp
              | key s =>
                  by_cases hs : s = k
                  · subst hs
                    rw [getPath_obj_key, hv] at hp
                    simp only [Option.some_bind] at hp
                    rcases hf v g rest hp with h₂ | h₂
                    · refine Or.inl ?_
                      rw [getPath_obj_key, getKey_setKey_self]
                      simpa using h₂
                    · exact Or.inr ⟨rest, rfl, h₂⟩
                  · rw [getPath_obj_key] at hp
                    refine Or.inl ?_
                    rw [getPath_obj_key, getKey_setKey_ne _ _ _ _ hs]
                    exact hp

/-- Result shape of a field-level `vary_value`: unchanged, or a childless
number replacing a childless value. -/
theorem varyValueJson_result (off : ℤ) (imp : Bool) (vol lo hi : ℚ) (j : Json)
    (g : Rng) :
    (varyValueJson off imp vol lo hi j g).1 = j ∨
      ((∃ w, (varyValueJson off imp vol lo hi j g).1 = Json.num w) ∧
        ∀ st (rest : List Step), getPath j (st :: rest) = none) := by
  cases j with
  | null => exact Or.inl rfl
  | bool b =>
      exact Or.inr ⟨⟨_, rfl⟩, by simp⟩
  | num q =>
      exact Or.inr ⟨⟨_, rfl⟩, by simp⟩
  | str s => exact Or.inl rfl
  | arr xs => exact Or.inl rfl
  | obj fs => exact Or.inl rfl

/-- Result shape of a field-level `vary_count`. -/
theorem varyCountJson_result (off : ℤ) (imp : Bool) (vol : ℚ) (j : Json) (g : Rng) :
    (varyCountJson off imp vol j g).1 = j ∨
      ((∃ w, (varyCountJson off imp vol j g).1 = Json.num w) ∧
        ∀ st (rest : List Step), getPath j (st :: rest) = none) := by
  cases j with
  | null => exact Or.inl rfl
  | bool b =>
      cases b with
      | false => exact Or.inl (by simp [varyCountJson, asNum])
      | true =>
          exact Or.inr ⟨⟨_, rfl⟩, by simp⟩
  | num q =>
      by_cases hq : q = 0
      · exact Or.inl (by simp [varyCountJson, asNum, hq])
      · refine Or.inr ⟨?_, by simp⟩
        simp only [varyCountJson, asNum, vary_count, vary_value, if_neg hq]
        exact ⟨_, rfl⟩
  | str s => exact Or.inl rfl
  | arr xs => exact Or.inl rfl
  | obj fs => exact Or.inl rfl

theorem addsOnly_leaf {f : Upd}
    (hres : ∀ j g, (f j g).1 = j ∨ ((∃ w, (f j g).1 = Json.num w) ∧
      ∀ st (rest : List Step), getPath j (st :: rest) = none)) :
    AddsOnly f (fun _ => False) := by
  intro j g p hp
  refine Or.inl ?_
  rcases hres j g with h | ⟨⟨w, h⟩, hleaf⟩
  · rw [h] at hp
    exact hp
  · rw [h] at hp
    cases p with
    | nil => simp
    | cons st rest => simp at hp

theorem keeps_leaf {f : Upd}
    (hres : ∀ j g, (f j g).1 = j ∨ ((∃ w, (f j g).1 = Json.num w) ∧
      ∀ st (rest : List Step), getPath j (st :: rest) = none)) :
    KeepsExcept f (fun _ => False) := by
  intro j g p hp
  refine Or.inl ?_
  rcases hres j g with h | ⟨⟨w, h⟩, hleaf⟩
  · rw [h]
    exact hp
  · rw [h]
    cases p with
    | nil => simp
    | cons st rest => exact absurd (hleaf st rest) hp

theorem addsOnly_flipStatus (off : ℤ) : AddsOnly (flipStatus off) (fun _ => False) := by
  intro j g p hp
  refine Or.inl ?_
  cases j with
  | null => exact hp
  | bool b => exact hp
  | num q => exact hp
  | str s => exact hp
  | arr xs => exact hp
  | obj fs =>
      obtain ⟨fs₂, g₂, heq, hcase⟩ := flipStatus_fields off fs g
      rw [heq] at hp
      rcases hcase with h | ⟨t, u, ht, h⟩
      · rw [h] at hp
        exact hp
      · rw [h] at hp
        cases p with
        | nil => simp
        | cons st rest =>
            cases st with
            | idx n => simp at hp
            | key s =>
                by_cases hs : s = "status"
                · subst hs
                  rw [getPath_obj_key, getKey_setKey_self] at hp
                  simp only [Option.some_bind] at hp
                  cases rest with
                  | nil =>
                      rw [getPath_obj_key, ht]
                      simp
                  | cons st₂ rest₂ => simp at hp
                · rw [getPath_obj_key, getKey_setKey_ne _ _ _ _ hs] at hp
                  rw [getPath_obj_key]
                  exact hp

theorem keeps_flipStatus (off : ℤ) : KeepsExcept (flipStatus off) (fun _ => False) := by
  intro j g p hp
  refine Or.inl ?_
  cases j with
  | null => exact hp
  | bool b => exact hp
  | num q => exact hp
  | str s => exact hp
  | arr xs => exact hp
  | obj fs =>
      obtain ⟨fs₂, g₂, heq, hcase⟩ := flipStatus_fields off fs g
      rw [heq]
      rcases hcase with h | ⟨t, u, ht, h⟩
      · rw [h]
        exact hp
      · rw [h]
        cases p with
        | nil => simp
        | cons st rest =>
            cases st with
            | idx n => simp at hp
            | key s =>
                by_cases hs : s = "status"
                · subst hs
                  rw [getPath_obj_key, ht] at hp
                  simp only [Option.some_bind] at hp
                  cases rest with
                  | nil =>
                      rw [getPath_obj_key, getKey_setKey_self]
                      simp
                  | cons st₂ rest₂ => simp at hp
                · rw [getPath_obj_key] at hp
                  rw [getPath_obj_key, getKey_setKey_ne _ _ _ _ hs]
                  exact hp

theorem addsOnly_recomputeTotal :
    AddsOnly recomputeTotal (fun p => p = [Step.key "total"]) := by
  intro j g p hp
  cases j with
  | null => exact Or.inl hp
  | bool b => exact Or.inl hp
  | num q => exact Or.inl hp
  | str s => exact Or.inl hp
  | arr xs => exact Or.inl hp
  | obj fs =>
      simp only [recomputeTotal] at hp
      cases hv : getKey fs "bySeverity" with
      | none =>
          rw [hv] at hp
          exact Or.inl hp
      | some v =>
          rw [hv] at hp
          cases v with
          | obj sevs =>
              by_cases he : sevs.isEmpty
              · simp only [he, if_true] at hp
                exact Or.inl hp
              · cases hs : sumVals sevs with
                | none =>
                    simp only [hs, if_neg he] at hp
                    exact Or.inl hp
                | some t =>
                    simp only [hs, if_neg he] at hp
                    cases p with
                    | nil => exact Or.inl (by simp)
                    | cons st rest =>
                        cases st with
                        | idx n => simp at hp
                        | key s =>
                            by_cases hk : s = "total"
                            · subst hk
                              rw [getPath_obj_key, getKey_setKey_self] at hp
                              simp only [Option.some_bind] at hp
                              cases rest with
                              | nil => exact Or.inr rfl
                              | cons st₂ rest₂ => simp at hp
                            · rw [getPath_obj_key, getKey_setKey_ne _ _ _ _ hk] at hp
                              refine Or.inl ?_
                              rw [getPath_obj_key]
                              exact hp
          | null => exact Or.inl hp
          | bool b => exact Or.inl hp
          | num q => exact Or.inl hp
          | str s => exact Or.inl hp
          | arr xs => exact Or.inl hp

theorem keeps_recomputeTotal :
    KeepsExcept recomputeTotal (fun p => ∃ q, p = Step.key "total" :: q ∧ q ≠ []) := by
  intro j g p hp
  cases j with
  | null => exact Or.inl hp
  | bool b => exact Or.inl hp
  | num q => exact Or.inl hp
  | str s => exact Or.inl hp
  | arr xs => exact Or.inl hp
  | obj fs =>
      simp only [recomputeTotal]
      cases hv : getKey fs "bySeverity" with
      | none => exact Or.inl hp
      | some v =>
          cases v with
          | obj sevs =>
              by_cases he : sevs.isEmpty
              · simp only [he, if_true]
                exact Or.inl hp
              · cases hs : sumVals sevs with
                | none =>
                    simp only [hs, if_neg he]
                    exact Or.inl hp
                | some t =>
                    simp only [hs, if_neg he]
                    cases p with
                    | nil => exact Or.inl (by simp)
                    | cons st rest =>
                        cases st with
                        | idx n => simp at hp
                        | key s =>
                            by_cases hk : s = "total"
                            · subst hk
                              cases rest with
                              | nil =>
                                  refine Or.inl ?_
                                  rw [getPath_obj_key, getKey_setKey_self]
                                  simp
                              | cons st₂ rest₂ => exact Or.inr ⟨_, rfl, by simp⟩
                            · rw [getPath_obj_key] at hp
                              refine Or.inl ?_
                              rw [getPath_obj_key, getKey_setKey_ne _ _ _ _ hk]
                              exact hp
          | null => exact Or.inl hp
          | bool b => exact Or.inl hp
          | num q => exact Or.inl hp
          | str s => exact Or.inl hp
          | arr xs => exact Or.inl hp

theorem addsOnly_varyFindingsList (off : ℤ) :
    AddsOnly (varyFindingsList off) (fun _ => False) := by
  intro j g p hp
  refine Or.inl ?_
  cases j with
  | null => exact hp
  | bool b => exact hp
  | num q => exact hp
  | str s => exact hp
  | obj fs => exact hp
  | arr xs =>
      cases p with
      | nil => simp
      | cons st rest =>
          cases st with
          | key s => simp [varyFindingsList] at hp
          | idx n =>
              have hp₂ : getPath (.arr (mapRng (flipStatus off) xs g).1)
                  (.idx n :: rest) ≠ none := hp
              rw [getPath_arr_idx] at hp₂
              rw [getPath_arr_idx]
              obtain ⟨g₂, hg⟩ := mapRng_get? (flipStatus off) xs g n
              rw [hg] at hp₂
              cases hx : xs.get? n with
              | none =>
                  rw [hx] at hp₂
                  exact absurd rfl hp₂
              | some x =>
                  rw [hx] at hp₂
                  have hp₃ : getPath ((flipStatus off x g₂).1) rest ≠ none := hp₂
                  rcases addsOnly_flipStatus off x g₂ rest hp₃ with h | h
                  · simpa using h
                  · exact h.elim

theorem keeps_varyFindingsList (off : ℤ) :
    KeepsExcept (varyFindingsList off) (fun _ => False) := by
  intro j g p hp
  refine Or.inl ?_
  cases j with
  | null => exact hp
  | bool b => exact hp
  | num q => exact hp
  | str s => exact hp
  | obj fs => exact hp
  | arr xs =>
      cases p with
      | nil => simp
      | cons st rest =>
          cases st with
          | key s => simp at hp
          | idx n =>
              rw [getPath_arr_idx] at hp
              show getPath (.arr (mapRng (flipStatus off) xs g).1) (.idx n :: rest) ≠ none
              rw [getPath_arr_idx]
              obtain ⟨g₂, hg⟩ := mapRng_get? (flipStatus off) xs g n
              rw [hg]
              cases hx : xs.get? n with
              | none =>
                  rw [hx] at hp
                  exact absurd rfl hp
              | some x =>
                  rw [hx] at hp
                  have hp₃ : getPath x rest ≠ none := hp
                  show Option.bind ((some x).map (fun y => (flipStatus off y g₂).1))
                    (fun v => getPath v rest) ≠ none
                  rcases keeps_flipStatus off x g₂ rest hp₃ with h | h
                  · exact h
                  · exact h.elim

theorem addsOnly_setFieldStr (k : String) (s : String) (j : Json) (p : List Step)
    (hp : getPath (setField k (.str s) j) p ≠ none) :
    getPath j p ≠ none ∨ p = [Step.key k] := by
  cases j with
  | null => exact Or.inl hp
  | bool b => exact Or.inl hp
  | num q => exact Or.inl hp
  | str t => exact Or.inl hp
  | arr xs => exact Or.inl hp
  | obj fs =>
      cases p with
      | nil => exact Or.inl (by simp)
      | cons st rest =>
          cases st with
          | idx n => simp [setField] at hp
          | key t =>
              by_cases ht : t = k
              · subst ht
                simp only [setField] at hp
                rw [getPath_obj_key, getKey_setKey_self] at hp
                simp only [Option.some_bind] at hp
                cases rest with
                | nil => exact Or.inr rfl
                | cons st₂ rest₂ => simp at hp
              · simp only [setField] at hp
                rw [getPath_obj_key, getKey_setKey_ne _ _ _ _ ht] at hp
                refine Or.inl ?_
                rw [getPath_obj_key]
                exact hp

theorem keeps_setFieldStr (k : String) (s : String) (j : Json) (p : List Step)
    (hp : getPath j p ≠ none) :
    getPath (setField k (.str s) j) p ≠ none ∨
      ∃ q, p = Step.key k :: q ∧ q ≠ [] := by
  cases j with
  | null => exact Or.inl hp
  | bool b => exact Or.inl hp
  | num q => exact Or.inl hp
  | str t => exact Or.inl hp
  | arr xs => exact Or.inl hp
  | obj fs =>
      cases p with
      | nil => exact Or.inl (by simp [setField])
      | cons st rest =>
          cases st with
          | idx n => simp at hp
          | key t =>
              by_cases ht : t = k
              · subst ht
                cases rest with
                | nil =>
                    refine Or.inl ?_
                    simp only [setField]
                    rw [getPath_obj_key, getKey_setKey_self]
                    simp
                | cons st₂ rest₂ => exact Or.inr ⟨_, rfl, by simp⟩
              · rw [getPath_obj_key] at hp
                refine Or.inl ?_
                simp only [setField]
                rw [getPath_obj_key, getKey_setKey_ne _ _ _ _ ht]
                exact hp

/-! Propagating the key-set lemmas through lifted combinators with no
additions of their own. -/

theorem addsOnly_false_modKey {f : Upd} (k : String)
    (hf : AddsOnly f (fun _ => False)) : AddsOnly (modKey k f) (fun _ => False) :=
  addsOnly_mono (addsOnly_modKey k hf) (fun _ h => by
    rcases h with ⟨q, _, h⟩
    exact h)

theorem addsOnly_false_withSub {f : Upd} (k : String)
    (hf : AddsOnly f (fun _ => False)) : AddsOnly (withSub k f) (fun _ => False) :=
  addsOnly_mono (addsOnly_withSub k hf) (fun _ h => by
    rcases h with ⟨q, _, h⟩
    exact h)

theorem addsOnly_false_seqU {f h : Upd}
    (hf : AddsOnly f (fun _ => False)) (hh : AddsOnly h (fun _ => False)) :
    AddsOnly (seqU f h) (fun _ => False) :=
  addsOnly_mono (addsOnly_seqU hf hh) (fun _ hx => by
    rcases hx with hx | hx <;> exact hx)

theorem keeps_false_modKey {f : Upd} (k : String)
    (hf : KeepsExcept f (fun _ => False)) : KeepsExcept (modKey k f) (fun _ => False) :=
  keeps_mono (keeps_modKey k hf) (fun _ h => by
    rcases h with ⟨q, _, h⟩
    exact h)

theorem keeps_false_withSub {f : Upd} (k : String)
    (hf : KeepsExcept f (fun _ => False)) : KeepsExcept (withSub k f) (fun _ => False) :=
  keeps_mono (keeps_withSub k hf) (fun _ h => by
    rcases h with ⟨q, _, h⟩
    exact h)

theorem keeps_false_seqU {f h : Upd}
    (hf : KeepsExcept f (fun _ => False)) (hh : KeepsExcept h (fun _ => False)) :
    KeepsExcept (seqU f h) (fun _ => False) :=
  keeps_mono (keeps_seqU hf hh) (fun _ hx => by
    rcases hx with hx | hx <;> exact hx)

theorem addsOnly_varyValueJson (off : ℤ) (imp : Bool) (vol lo hi : ℚ) :
    AddsOnly (varyValueJson off imp vol lo hi) (fun _ => False) :=
  addsOnly_leaf (varyValueJson_result off imp vol lo hi)

theorem keeps_varyValueJson (off : ℤ) (imp : Bool) (vol lo hi : ℚ) :
    KeepsExcept (varyValueJson off imp vol lo hi) (fun _ => False) :=
  keeps_leaf (varyValueJson_result off imp vol lo hi)

theorem addsOnly_varyCountJson (off : ℤ) (imp : Bool) (vol : ℚ) :
    AddsOnly (varyCountJson off imp vol) (fun _ => False) :=
  addsOnly_leaf (varyCountJson_result off imp vol)

theorem keeps_varyCountJson (off : ℤ) (imp : Bool) (vol : ℚ) :
    KeepsExcept (varyCountJson off imp vol) (fun _ => False) :=
  keeps_leaf (varyCountJson_result off imp vol)

/-! Per-pass key-set lemmas. -/

theorem addsOnly_ES (off : ℤ) :
    AddsOnly (vary_executive_scorecard off) (fun _ => False) :=
  addsOnly_false_withSub _ (addsOnly_false_seqU
    (addsOnly_false_modKey _ (addsOnly_false_modKey _ (addsOnly_varyValueJson _ _ _ _ _)))
    (addsOnly_false_seqU
      (addsOnly_false_withSub _
        (addsOnly_false_seqU (addsOnly_false_modKey _ (addsOnly_varyValueJson _ _ _ _ _))
          (addsOnly_false_seqU (addsOnly_false_modKey _ (addsOnly_varyValueJson _ _ _ _ _))
            (addsOnly_false_seqU (addsOnly_false_modKey _ (addsOnly_varyValueJson _ _ _ _ _))
              (addsOnly_false_modKey _ (addsOnly_varyValueJson _ _ _ _ _))))))
      (addsOnly_false_withSub _
        (addsOnly_false_seqU (addsOnly_false_modKey _ (addsOnly_varyCountJson _ _ _))
          (addsOnly_false_seqU (addsOnly_false_modKey _ (addsOnly_varyCountJson _ _ _))
            (addsOnly_false_seqU (addsOnly_false_modKey _ (addsOnly_varyCountJson _ _ _))
              (addsOnly_false_modKey _ (addsOnly_varyCountJson _ _ _))))))))

theorem keeps_ES (off : ℤ) :
    KeepsExcept (vary_executive_scorecard off) (fun _ => False) :=
  keeps_false_withSub _ (keeps_false_seqU
    (keeps_false_modKey _ (keeps_false_modKey _ (keeps_varyValueJson _ _ _ _ _)))
    (keeps_false_seqU
      (keeps_false_withSub _
        (keeps_false_seqU (keeps_false_modKey _ (keeps_varyValueJson _ _ _ _ _))
          (keeps_false_seqU (keeps_false_modKey _ (keeps_varyValueJson _ _ _ _ _))
            (keeps_false_seqU (keeps_false_modKey _ (keeps_varyValueJson _ _ _ _ _))
              (keeps_false_modKey _ (keeps_varyValueJson _ _ _ _ _))))))
      (keeps_false_withSub _
        (keeps_false_seqU (keeps_false_modKey _ (keeps_varyCountJson _ _ _))
          (keeps_false_seqU (keeps_false_modKey _ (keeps_varyCountJson _ _ _))
            (keeps_false_seqU (keeps_false_modKey _ (keeps_varyCountJson _ _ _))
              (keeps_false_modKey _ (keeps_varyCountJson _ _ _))))))))

theorem addsOnly_Compliance (off : ℤ) :
    AddsOnly (vary_compliance_metrics off) (fun _ => False) :=
  addsOnly_false_withSub _ (addsOnly_false_seqU
    (addsOnly_false_withSub _
      (addsOnly_false_modKey _ (addsOnly_false_modKey _ (addsOnly_varyValueJson _ _ _ _ _))))
    (addsOnly_false_seqU
      (addsOnly_false_withSub _ (addsOnly_false_withSub _
        (addsOnly_false_seqU (addsOnly_false_modKey _ (addsOnly_varyValueJson _ _ _ _ _))
          (addsOnly_false_seqU (addsOnly_false_modKey _ (addsOnly_varyValueJson _ _ _ _ _))
            (addsOnly_false_modKey _ (addsOnly_varyCountJson _ _ _))))))
      (addsOnly_false_withSub _
        (addsOnly_false_modKey _ (addsOnly_false_modKey _ (addsOnly_varyValueJson _ _ _ _ _))))))

theorem keeps_Compliance (off : ℤ) :
    KeepsExcept (vary_compliance_metrics off) (fun _ => False) :=
  keeps_false_withSub _ (keeps_false_seqU
    (keeps_false_withSub _
      (keeps_false_modKey _ (keeps_false_modKey _ (keeps_varyValueJson _ _ _ _ _))))
    (keeps_false_seqU
      (keeps_false_withSub _ (keeps_false_withSub _
        (keeps_false_seqU (keeps_false_modKey _ (keeps_varyValueJson _ _ _ _ _))
          (keeps_false_seqU (keeps_false_modKey _ (keeps_varyValueJson _ _ _ _ _))
            (keeps_false_modKey _ (keeps_varyCountJson _ _ _))))))
      (keeps_false_withSub _
        (keeps_false_modKey _ (keeps_false_modKey _ (keeps_varyValueJson _ _ _ _ _))))))

theorem addsOnly_Risk (off : ℤ) :
    AddsOnly (vary_risk_metrics off) (fun _ => False) :=
  addsOnly_false_withSub _ (addsOnly_false_seqU
    (addsOnly_false_withSub _ (addsOnly_false_seqU
      (addsOnly_false_modKey _ (addsOnly_false_modKey _ (addsOnly_varyCountJson _ _ _)))
      (addsOnly_false_withSub _
        (addsOnly_false_seqU (addsOnly_false_modKey _ (addsOnly_varyValueJson _ _ _ _ _))
          (addsOnly_false_seqU (addsOnly_false_modKey _ (addsOnly_varyValueJson _ _ _ _ _))
            (addsOnly_false_modKey _ (addsOnly_varyValueJson _ _ _ _ _)))))))
    (addsOnly_false_seqU
      (addsOnly_false_withSub _
        (addsOnly_false_modKey _ (addsOnly_false_modKey _ (addsOnly_varyValueJson _ _ _ _ _))))
      (addsOnly_false_withSub _
        (addsOnly_false_modKey _ (addsOnly_false_modKey _ (addsOnly_varyValueJson _ _ _ _ _))))))

theorem keeps_Risk (off : ℤ) :
    KeepsExcept (vary_risk_metrics off) (fun _ => False) :=
  keeps_false_withSub _ (keeps_false_seqU
    (keeps_false_withSub _ (keeps_false_seqU
      (keeps_false_modKey _ (keeps_false_modKey _ (keeps_varyCountJson _ _ _)))
      (keeps_false_withSub _
        (keeps_false_seqU (keeps_false_modKey _ (keeps_varyValueJson _ _ _ _ _))
          (keeps_false_seqU (keeps_false_modKey _ (keeps_varyValueJson _ _ _ _ _))
            (keeps_false_modKey _ (keeps_varyValueJson _ _ _ _ _)))))))
    (keeps_false_seqU
      (keeps_false_withSub _
        (keeps_false_modKey _ (keeps_false_modKey _ (keeps_varyValueJson _ _ _ _ _))))
      (keeps_false_withSub _
        (keeps_false_modKey _ (keeps_false_modKey _ (keeps_varyValueJson _ _ _ _ _))))))

theorem addsOnly_Ops (off : ℤ) :
    AddsOnly (vary_operational_metrics off) (fun _ => False) :=
  addsOnly_false_withSub _ (addsOnly_false_seqU
    (addsOnly_false_withSub _ (addsOnly_false_seqU
      (addsOnly_false_modKey _ (addsOnly_false_modKey _ (addsOnly_varyValueJson _ _ _ _ _)))
      (addsOnly_false_modKey _ (addsOnly_false_modKey _ (addsOnly_varyValueJson _ _ _ _ _)))))
    (addsOnly_false_withSub _ (addsOnly_false_modKey _
      (addsOnly_false_seqU (addsOnly_false_modKey _ (addsOnly_varyValueJson _ _ _ _ _))
        (addsOnly_false_seqU (addsOnly_false_modKey _ (addsOnly_varyValueJson _ _ _ _ _))
          (addsOnly_false_modKey _ (addsOnly_varyValueJson _ _ _ _ _)))))))

theorem keeps_Ops (off : ℤ) :
    KeepsExcept (vary_operational_metrics off) (fun _ => False) :=
  keeps_false_withSub _ (keeps_false_seqU
    (keeps_false_withSub _ (keeps_false_seqU
      (keeps_false_modKey _ (keeps_false_modKey _ (keeps_varyValueJson _ _ _ _ _)))
      (keeps_false_modKey _ (keeps_false_modKey _ (keeps_varyValueJson _ _ _ _ _)))))
    (keeps_false_withSub _ (keeps_false_modKey _
      (keeps_false_seqU (keeps_false_modKey _ (keeps_varyValueJson _ _ _ _ _))
        (keeps_false_seqU (keeps_false_modKey _ (keeps_varyValueJson _ _ _ _ _))
          (keeps_false_modKey _ (keeps_varyValueJson _ _ _ _ _)))))))

theorem addsOnly_Audit (off : ℤ) :
    AddsOnly (vary_audit_findings off)
      (fun p => p = [Step.key "auditFindings", Step.key "summary", Step.key "total"]) := by
  refine addsOnly_mono
    (addsOnly_withSub "auditFindings" (addsOnly_seqU
      (addsOnly_withSub "summary" (addsOnly_seqU
        (addsOnly_false_modKey _ (addsOnly_varyCountJson _ _ _))
        (addsOnly_seqU
          (addsOnly_false_withSub _
            (addsOnly_false_seqU (addsOnly_false_modKey _ (addsOnly_varyCountJson _ _ _))
              (addsOnly_false_seqU (addsOnly_false_modKey _ (addsOnly_varyCountJson _ _ _))
                (addsOnly_false_seqU (addsOnly_false_modKey _ (addsOnly_varyCountJson _ _ _))
                  (addsOnly_false_modKey _ (addsOnly_varyCountJson _ _ _))))))
          addsOnly_recomputeTotal)))
      (addsOnly_false_seqU
        (addsOnly_false_withSub _ (addsOnly_false_withSub _
          (addsOnly_false_modKey _ (addsOnly_varyValueJson _ _ _ _ _))))
        (addsOnly_false_withSub _ (addsOnly_varyFindingsList off))))) ?_
  intro p h
  rcases h with ⟨q₁, rfl, h⟩
  rcases h with ⟨q₂, rfl, h⟩ | h
  · rcases h with h | h
    · exact h.elim
    · rcases h with h | h
      · exact h.elim
      · rw [h]
  · exact h.elim

theorem keeps_Audit (off : ℤ) :
    KeepsExcept (vary_audit_findings off)
      (fun p => ∃ q, p = Step.key "auditFindings" :: Step.key "summary" ::
        Step.key "total" :: q ∧ q ≠ []) := by
  refine keeps_mono
    (keeps_withSub "auditFindings" (keeps_seqU
      (keeps_withSub "summary" (keeps_seqU
        (keeps_false_modKey _ (keeps_varyCountJson _ _ _))
        (keeps_seqU
          (keeps_false_withSub _
            (keeps_false_seqU (keeps_false_modKey _ (keeps_varyCountJson _ _ _))
              (keeps_false_seqU (keeps_false_modKey _ (keeps_varyCountJson _ _ _))
                (keeps_false_seqU (keeps_false_modKey _ (keeps_varyCountJson _ _ _))
                  (keeps_false_modKey _ (keeps_varyCountJson _ _ _))))))
          keeps_recomputeTotal)))
      (keeps_false_seqU
        (keeps_false_withSub _ (keeps_false_withSub _
          (keeps_false_modKey _ (keeps_varyValueJson _ _ _ _ _))))
        (keeps_false_withSub _ (keeps_varyFindingsList off))))) ?_
  intro p h
  rcases h with ⟨q₁, rfl, h⟩
  rcases h with ⟨q₂, rfl, h⟩ | h
  · rcases h with h | h
    · exact h.elim
    · rcases h with h | ⟨q₃, rfl, h⟩
      · exact h.elim
      · exact ⟨q₃, rfl, h⟩
  · exact h.elim

theorem addsOnly_buSections (off : ℤ) :
    AddsOnly (buSections off)
      (fun p => p = [Step.key "auditFindings", Step.key "summary", Step.key "total"]) := by
  refine addsOnly_mono
    (addsOnly_seqU (addsOnly_ES off) (addsOnly_seqU (addsOnly_Compliance off)
      (addsOnly_seqU (addsOnly_Risk off)
        (addsOnly_seqU (addsOnly_Ops off) (addsOnly_Audit off))))) ?_
  intro p h
  rcases h with h | h | h | h | h
  · exact h.elim
  · exact h.elim
  · exact h.elim
  · exact h.elim
  · exact h

theorem keeps_buSections (off : ℤ) :
    KeepsExcept (buSections off)
      (fun p => ∃ q, p = Step.key "auditFindings" :: Step.key "summary" ::
        Step.key "total" :: q ∧ q ≠ []) := by
  refine keeps_mono
    (keeps_seqU (keeps_ES off) (keeps_seqU (keeps_Compliance off)
      (keeps_seqU (keeps_Risk off)
        (keeps_seqU (keeps_Ops off) (keeps_Audit off))))) ?_
  intro p h
  rcases h with h | h | h | h | h
  · exact h.elim
  · exact h.elim
  · exact h.elim
  · exact h.elim
  · exact h

/-- Frame, key-creation and key-preservation properties of one run of the
business-unit generator. -/
theorem generateBU_props (b : Json) (q : String) (g : Rng) (out : Json) (g₂ : Rng)
    (h : generateBU b q g = some (out, g₂)) :
    (∀ p, ¬ touchedBU p → getPath out p = getPath b p) ∧
    (∀ p, getPath b p = none → getPath out p ≠ none → addedBU p) ∧
    (∀ p, getPath b p ≠ none → getPath out p ≠ none ∨ replacedBU p) := by
  rcases hq : List.lookup q QUARTER_TRENDS with _ | off
  · rw [generateBU, hq] at h
    exact Option.noConfusion h
  · rcases hd : List.lookup q quarter_dates with _ | d
    · rw [generateBU, hq, hd] at h
      exact Option.noConfusion h
    · rw [generateBU, hq, hd] at h
      have h₂ : buSections off
          (setField "date" (.str d) (setField "quarter" (.str q.toUpper) b)) g
            = (out, g₂) := Option.some.inj h
      have hout : out = (buSections off
          (setField "date" (.str d) (setField "quarter" (.str q.toUpper) b)) g).1 := by
        rw [h₂]
      refine ⟨?_, ?_, ?_⟩
      · intro p hp
        have hq1 : ¬ kLift "quarter" trueT p := fun t => hp (Or.inl t)
        have hd1 : ¬ kLift "date" trueT p := fun t => hp (Or.inr (Or.inl t))
        have hsec : ¬ (touchedES p ∨ (touchedCompliance p ∨
            (touchedRisk p ∨ (touchedOps p ∨ touchedAudit p)))) :=
          fun t => hp (Or.inr (Or.inr t))
        rw [hout, frames_buSections off _ g p hsec, frames_setField _ _ _ _ hd1,
          frames_setField _ _ _ _ hq1]
      · intro p hbp hop
        rw [hout] at hop
        rcases addsOnly_buSections off _ g p hop with h₁ | h₁
        · rcases addsOnly_setFieldStr "date" d _ p h₁ with h₂ | h₂
          · rcases addsOnly_setFieldStr "quarter" q.toUpper b p h₂ with h₃ | h₃
            · exact absurd hbp h₃
            · exact Or.inl h₃
          · exact Or.inr (Or.inl h₂)
        · exact Or.inr (Or.inr h₁)
      · intro p hbp
        rcases keeps_setFieldStr "quarter" q.toUpper b p hbp with h₁ | h₁
        · rcases keeps_setFieldStr "date" d _ p h₁ with h₂ | h₂
          · rcases keeps_buSections off _ g p h₂ with h₃ | h₃
            · refine Or.inl ?_
              rw [hout]
              exact h₃
            · exact Or.inr (Or.inr (Or.inr h₃))
          · exact Or.inr (Or.inr (Or.inl h₂))
        · exact Or.inr (Or.inl h₁)

/-- Frame, key-creation and key-preservation properties of one run of the
enterprise generator. -/
theorem generateENT_props (b : Json) (q : String) (g : Rng) (out : Json) (g₂ : Rng)
    (h : generate_quarterly_enterprise_data b q g = some (out, g₂)) :
    (∀ p, ¬ touchedENT p → getPath out p = getPath b p) ∧
    (∀ p, getPath b p = none → getPath out p ≠ none → addedENT p) ∧
    (∀ p, getPath b p ≠ none → getPath out p ≠ none ∨ replacedENT p) := by
  rcases hq : List.lookup q QUARTER_TRENDS with _ | off
  · rw [generate_quarterly_enterprise_data, hq] at h
    exact Option.noConfusion h
  · rcases hd : List.lookup q quarter_dates with _ | d
    · rw [generate_quarterly_enterprise_data, hq, hd] at h
      exact Option.noConfusion h
    · rw [generate_quarterly_enterprise_data, hq, hd] at h
      have h₂ : modKey "executiveScorecard"
          (seqU (modKey "enterpriseRiskScore" (varyValueJson off true (2/100) 60 95))
            (seqU (modKey "complianceRate" (varyValueJson off true (15/1000) 80 99))
              (modKey "activeFindings" (varyCountJson off false (15/100)))))
          (setField "generatedDate" (.str d)
            (setField "reportingPeriod" (.str q.toUpper) b)) g = (out, g₂) :=
        Option.some.inj h
      have hout : out = (modKey "executiveScorecard"
          (seqU (modKey "enterpriseRiskScore" (varyValueJson off true (2/100) 60 95))
            (seqU (modKey "complianceRate" (varyValueJson off true (15/1000) 80 99))
              (modKey "activeFindings" (varyCountJson off false (15/100)))))
          (setField "generatedDate" (.str d)
            (setField "reportingPeriod" (.str q.toUpper) b)) g).1 := by
        rw [h₂]
      have hcore : Frames (modKey "executiveScorecard"
          (seqU (modKey "enterpriseRiskScore" (varyValueJson off true (2/100) 60 95))
            (seqU (modKey "complianceRate" (varyValueJson off true (15/1000) 80 99))
              (modKey "activeFindings" (varyCountJson off false (15/100))))))
          (kLift "executiveScorecard" (fun p =>
            kLift "enterpriseRiskScore" leafT p ∨ (kLift "complianceRate" leafT p ∨
              kLift "activeFindings" leafT p))) :=
        frames_modKey _ (frames_seqU (frames_modKey _ (frames_varyValueJson _ _ _ _ _))
          (frames_seqU (frames_modKey _ (frames_varyValueJson _ _ _ _ _))
            (frames_modKey _ (frames_varyCountJson _ _ _))))
      have hadds : AddsOnly (modKey "executiveScorecard"
          (seqU (modKey "enterpriseRiskScore" (varyValueJson off true (2/100) 60 95))
            (seqU (modKey "complianceRate" (varyValueJson off true (15/1000) 80 99))
              (modKey "activeFindings" (varyCountJson off false (15/100))))))
          (fun _ => False) :=
        addsOnly_false_modKey _ (addsOnly_false_seqU
          (addsOnly_false_modKey _ (addsOnly_varyValueJson _ _ _ _ _))
          (addsOnly_false_seqU (addsOnly_false_modKey _ (addsOnly_varyValueJson _ _ _ _ _))
            (addsOnly_false_modKey _ (addsOnly_varyCountJson _ _ _))))
      have hkeeps : KeepsExcept (modKey "executiveScorecard"
          (seqU (modKey "enterpriseRiskScore" (varyValueJson off true (2/100) 60 95))
            (seqU (modKey "complianceRate" (varyValueJson off true (15/1000) 80 99))
              (modKey "activeFindings" (varyCountJson off false (15/100))))))
          (fun _ => False) :=
        keeps_false_modKey _ (keeps_false_seqU
          (keeps_false_modKey _ (keeps_varyValueJson _ _ _ _ _))
          (keeps_false_seqU (keeps_false_modKey _ (keeps_varyValueJson _ _ _ _ _))
            (keeps_false_modKey _ (keeps_varyCountJson _ _ _))))
      refine ⟨?_, ?_, ?_⟩
      · intro p hp
        have hq1 : ¬ kLift "reportingPeriod" trueT p := fun t => hp (Or.inl t)
        have hd1 : ¬ kLift "generatedDate" trueT p := fun t => hp (Or.inr (Or.inl t))
        have hsec : ¬ kLift "executiveScorecard" (fun q =>
            kLift "enterpriseRiskScore" leafT q ∨ (kLift "complianceRate" leafT q ∨
              kLift "activeFindings" leafT q)) p :=
          fun t => hp (Or.inr (Or.inr t))
        rw [hout, hcore _ g p hsec, frames_setField _ _ _ _ hd1,
          frames_setField _ _ _ _ hq1]
      · intro p hbp hop
        rw [hout] at hop
        rcases hadds _ g p hop with h₁ | h₁
        · rcases addsOnly_setFieldStr "generatedDate" d _ p h₁ with h₂ | h₂
          · rcases addsOnly_setFieldStr "reportingPeriod" q.toUpper b p h₂ with h₃ | h₃
            · exact absurd hbp h₃
            · exact Or.inl h₃
          · exact Or.inr h₂
        · exact h₁.elim
      · intro p hbp
        rcases keeps_setFieldStr "reportingPeriod" q.toUpper b p hbp with h₁ | h₁
        · rcases keeps_setFieldStr "generatedDate" d _ p h₁ with h₂ | h₂
          · rcases hkeeps _ g p h₂ with h₃ | h₃
            · refine Or.inl ?_
              rw [hout]
              exact h₃
            · exact h₃.elim
          · exact Or.inr (Or.inr h₂)
        · exact Or.inr (Or.inl h₁)

/-! ## Shape lemmas for the audit-findings pass -/

theorem modKey_obj (k : String) (f : Upd) (fs : List (String × Json)) (g : Rng) :
    ∃ fs₂ g₂, modKey k f (.obj fs) g = (.obj fs₂, g₂) ∧
      ∀ s, s ≠ k → getKey fs₂ s = getKey fs s := by
  cases hv : getKey fs k with
  | none => exact ⟨fs, g, by simp [modKey, hv], fun s hs => rfl⟩
  | some v =>
      exact ⟨setKey fs k (f v g).1, (f v g).2, by simp [modKey, hv],
        fun s hs => getKey_setKey_ne _ _ _ _ hs⟩

theorem withSub_obj (k : String) (f : Upd) (fs : List (String × Json)) (g : Rng) :
    ∃ fs₂ g₂, withSub k f (.obj fs) g = (.obj fs₂, g₂) ∧
      ∀ s, s ≠ k → getKey fs₂ s = getKey fs s := by
  cases hv : getKey fs k with
  | none => exact ⟨fs, (f (.obj []) g).2, by simp [withSub, hv], fun s hs => rfl⟩
  | some v =>
      exact ⟨setKey fs k (f v g).1, (f v g).2, by simp [withSub, hv],
        fun s hs => getKey_setKey_ne _ _ _ _ hs⟩

theorem recomputeTotal_obj (fs : List (String × Json)) (g : Rng) :
    ∃ fs₂, recomputeTotal (.obj fs) g = (.obj fs₂, g) ∧
      (∀ s, s ≠ "total" → getKey fs₂ s = getKey fs s) ∧
      (∀ sevs t, getKey fs "bySeverity" = some (.obj sevs) → sevs.isEmpty = false →
        sumVals sevs = some t → getKey fs₂ "total" = some (.num t)) ∧
      ((getKey fs "bySeverity" = none ∨ getKey fs "bySeverity" = some (.obj [])) →
        fs₂ = fs) := by
  cases hv : getKey fs "bySeverity" with
  | none =>
      refine ⟨fs, by simp [recomputeTotal, hv], fun s _ => rfl, ?_, fun _ => rfl⟩
      intro sevs t h
      exact Option.noConfusion h
  | some v =>
      cases v with
      | obj sevs =>
          by_cases he : sevs.isEmpty
          · refine ⟨fs, by simp [recomputeTotal, hv, he], fun s _ => rfl, ?_, fun _ => rfl⟩
            intro sevs₂ t h hne _
            simp only [Option.some.injEq, Json.obj.injEq] at h
            subst h
            rw [he] at hne
            exact Bool.noConfusion hne
          · cases hs : sumVals sevs with
            | none =>
                refine ⟨fs, by simp [recomputeTotal, hv, hs, if_neg he], fun s _ => rfl,
                  ?_, ?_⟩
                · intro sevs₂ t h hne hsum
                  simp only [Option.some.injEq, Json.obj.injEq] at h
                  subst h
                  rw [hs] at hsum
                  exact Option.noConfusion hsum
                · intro hcase
                  rcases hcase with hc | hc
                  · exact Option.noConfusion hc
                  · simp only [Option.some.injEq, Json.obj.injEq] at hc
                    subst hc
                    exact absurd rfl he
            | some t₀ =>
                refine ⟨setKey fs "total" (.num t₀),
                  by simp [recomputeTotal, hv, hs, if_neg he],
                  fun s hs₂ => getKey_setKey_ne _ _ _ _ hs₂, ?_, ?_⟩
                · intro sevs₂ t h hne hsum
                  simp only [Option.some.injEq, Json.obj.injEq] at h
                  subst h
                  rw [hs] at hsum
                  rw [getKey_setKey_self]
                  simp only [Option.some.injEq] at hsum
                  rw [hsum]
                · intro hcase
                  rcases hcase with hc | hc
                  · exact Option.noConfusion hc
                  · simp only [Option.some.injEq, Json.obj.injEq] at hc
                    subst hc
                    exact absurd rfl he
      | null => exact ⟨fs, by simp [recomputeTotal, hv], fun s _ => rfl,
          fun sevs t h => by simp at h, fun hc => by rcases hc with hc | hc <;> simp at hc⟩
      | bool b => exact ⟨fs, by simp [recomputeTotal, hv], fun s _ => rfl,
          fun sevs t h => by simp at h, fun hc => by rcases hc with hc | hc <;> simp at hc⟩
      | num q => exact ⟨fs, by simp [recomputeTotal, hv], fun s _ => rfl,
          fun sevs t h => by simp at h, fun hc => by rcases hc with hc | hc <;> simp at hc⟩
      | str s => exact ⟨fs, by simp [recomputeTotal, hv], fun s₂ _ => rfl,
          fun sevs t h => by simp at h, fun hc => by rcases hc with hc | hc <;> simp at hc⟩
      | arr xs => exact ⟨fs, by simp [recomputeTotal, hv], fun s _ => rfl,
          fun sevs t h => by simp at h, fun hc => by rcases hc with hc | hc <;> simp at hc⟩

/-- After the summary block, a present non-empty numeric severity breakdown
forces the total to be its sum. -/
theorem summary_block_obj (off : ℤ) (ss : List (String × Json)) (g : Rng) :
    ∃ ss₃ g₃, summary_block off (.obj ss) g = (.obj ss₃, g₃) ∧
      ∀ fs' t, getKey ss₃ "bySeverity" = some (.obj fs') → fs'.isEmpty = false →
        sumVals fs' = some t → getKey ss₃ "total" = some (.num t) := by
  obtain ⟨s₁, g₁, e₁, h₁⟩ := modKey_obj "total" (varyCountJson off false (15/100)) ss g
  obtain ⟨s₂, g₂, e₂, h₂⟩ := withSub_obj "bySeverity"
    (seqU (modKey "critical" (varyCountJson off false (2/10)))
      (seqU (modKey "high" (varyCountJson off false (2/10)))
        (seqU (modKey "medium" (varyCountJson off false (15/100)))
          (modKey "low" (varyCountJson off false (15/100)))))) s₁ g₁
  obtain ⟨s₃, e₃, h₃, h₄, _⟩ := recomputeTotal_obj s₂ g₂
  refine ⟨s₃, g₂, ?_, ?_⟩
  · show (seqU _ (seqU _ recomputeTotal)) (.obj ss) g = _
    simp only [seqU]
    rw [e₁, e₂, e₃]
  · intro fs' t hby hne hsum
    have hb₂ : getKey s₂ "bySeverity" = some (.obj fs') := by
      rw [← h₃ "bySeverity" (by decide)]
      exact hby
    exact h₄ fs' t hb₂ hne hsum

theorem not_kLift_of_head_ne {T : List Step → Prop} {k s : String} (h : s ≠ k)
    (q : List Step) : ¬ kLift k T (Step.key s :: q) := by
  intro hc
  rcases hc with hc | ⟨r, hr, _⟩
  · exact List.noConfusion hc
  · injection hr with h₁ h₂
    injection h₁ with h₃
    exact h h₃

/-- After the whole audit-findings pass, a present non-empty numeric
severity breakdown in the output forces the output total to be its sum. -/
theorem vary_audit_total (off : ℤ) (j : Json) (g : Rng)
    (fs' : List (String × Json)) (t : ℚ)
    (hby : getPath ((vary_audit_findings off j g).1)
      [Step.key "auditFindings", Step.key "summary", Step.key "bySeverity"]
        = some (.obj fs'))
    (hne : fs'.isEmpty = false) (hsum : sumVals fs' = some t) :
    getPath ((vary_audit_findings off j g).1)
      [Step.key "auditFindings", Step.key "summary", Step.key "total"]
        = some (.num t) := by
  have hrest : Frames (seqU
      (withSub "testing" (withSub "results"
        (modKey "pass" (varyValueJson off true (25/1000) 75 98))))
      (withSub "findings" (varyFindingsList off)))
      (fun p => kLift "testing" (kLift "results" (kLift "pass" leafT)) p ∨
        kLift "findings" (fun q =>
          q = [] ∨ ∃ n r, q = Step.idx n :: r ∧ kLift "status" trueT r) p) :=
    frames_seqU
      (frames_withSub _ (frames_withSub _ (frames_modKey _ (frames_varyValueJson _ _ _ _ _))))
      (frames_withSub _ (frames_varyFindingsList off))
  have hnots : ∀ X : String,
      ¬ (kLift "testing" (kLift "results" (kLift "pass" leafT))
          [Step.key "summary", Step.key X] ∨
        kLift "findings" (fun q =>
          q = [] ∨ ∃ n r, q = Step.idx n :: r ∧ kLift "status" trueT r)
          [Step.key "summary", Step.key X]) := by
    intro X hc
    rcases hc with hc | hc
    · exact not_kLift_of_head_ne (by decide) _ hc
    · exact not_kLift_of_head_ne (by decide) _ hc
  cases j with
  | null =>
      rw [show (vary_audit_findings off Json.null g).1 = Json.null from rfl] at hby
      simp at hby
  | bool b =>
      rw [show (vary_audit_findings off (Json.bool b) g).1 = Json.bool b from rfl] at hby
      simp at hby
  | num q =>
      rw [show (vary_audit_findings off (Json.num q) g).1 = Json.num q from rfl] at hby
      simp at hby
  | str s =>
      rw [show (vary_audit_findings off (Json.str s) g).1 = Json.str s from rfl] at hby
      simp at hby
  | arr xs =>
      rw [show (vary_audit_findings off (Json.arr xs) g).1 = Json.arr xs from rfl] at hby
      simp at hby
  | obj fs =>
      cases hv : getKey fs "auditFindings" with
      | none =>
          have hid : (vary_audit_findings off (.obj fs) g).1 = .obj fs := by
            simp [vary_audit_findings, withSub, hv]
          rw [hid, getPath_obj_key, hv] at hby
          exact Option.noConfusion hby
      | some v =>
          have hout : (vary_audit_findings off (.obj fs) g).1
              = .obj (setKey fs "auditFindings" (audit_inner off v g).1) := by
            simp [vary_audit_findings, withSub, hv]
          rw [hout, getPath_obj_key, getKey_setKey_self] at hby
          rw [hout, getPath_obj_key, getKey_setKey_self]
          simp only [Option.some_bind] at hby ⊢
          have hsplit : (audit_inner off v g).1
              = ((seqU
                  (withSub "testing" (withSub "results"
                    (modKey "pass" (varyValueJson off true (25/1000) 75 98))))
                  (withSub "findings" (varyFindingsList off)))
                ((withSub "summary" (summary_block off) v g).1)
                ((withSub "summary" (summary_block off) v g).2)).1 := rfl
          rw [hsplit] at hby ⊢
          rw [hrest _ _ _ (hnots "bySeverity")] at hby
          rw [hrest _ _ _ (hnots "total")]
          cases v with
          | null =>
              rw [show (withSub "summary" (summary_block off) Json.null g).1
                = Json.null from rfl] at hby
              simp at hby
          | bool b =>
              rw [show (withSub "summary" (summary_block off) (Json.bool b) g).1
                = Json.bool b from rfl] at hby
              simp at hby
          | num q =>
              rw [show (withSub "summary" (summary_block off) (Json.num q) g).1
                = Json.num q from rfl] at hby
              simp at hby
          | str s =>
              rw [show (withSub "summary" (summary_block off) (Json.str s) g).1
                = Json.str s from rfl] at hby
              simp at hby
          | arr xs =>
              rw [show (withSub "summary" (summary_block off) (Json.arr xs) g).1
                = Json.arr xs from rfl] at hby
              simp at hby
          | obj fsv =>
              cases hsv : getKey fsv "summary" with
              | none =>
                  have hid₂ : (withSub "summary" (summary_block off) (.obj fsv) g).1
                      = .obj fsv := by
                    simp [withSub, hsv]
                  rw [hid₂, getPath_obj_key, hsv] at hby
                  exact Option.noConfusion hby
              | some sv =>
                  have hA : (withSub "summary" (summary_block off) (.obj fsv) g).1
                      = .obj (setKey fsv "summary" (summary_block off sv g).1) := by
                    simp [withSub, hsv]
                  rw [hA, getPath_obj_key, getKey_setKey_self] at hby
                  rw [hA, getPath_obj_key, getKey_setKey_self]
                  simp only [Option.some_bind] at hby ⊢
                  cases sv with
                  | null =>
                      rw [show (summary_block off Json.null g).1 = Json.null from rfl] at hby
                      simp at hby
                  | bool b =>
                      rw [show (summary_block off (Json.bool b) g).1
                        = Json.bool b from rfl] at hby
                      simp at hby
                  | num q =>
                      rw [show (summary_block off (Json.num q) g).1
                        = Json.num q from rfl] at hby
                      simp at hby
                  | str s =>
                      rw [show (summary_block off (Json.str s) g).1
                        = Json.str s from rfl] at hby
                      simp at hby
                  | arr xs =>
                      rw [show (summary_block off (Json.arr xs) g).1
                        = Json.arr xs from rfl] at hby
                      simp at hby
                  | obj ss =>
                      obtain ⟨ss₃, g₃, e₃, h₃⟩ := summary_block_obj off ss g
                      rw [e₃] at hby ⊢
                      cases hk : getKey ss₃ "bySeverity" with
                      | none =>
                          rw [getPath_obj_key, hk] at hby
                          exact Option.noConfusion hby
                      | some w =>
                          rw [getPath_obj_key, hk] at hby
                          simp only [Option.some_bind, getPath_nil,
                            Option.some.injEq] at hby
                          subst hby
                          have htot := h₃ fs' t hk hne hsum
                          rw [getPath_obj_key, htot]
                          rfl

theorem getPath_key_some {j : Json} {s : String} {p : List Step} {v : Json}
    (h : getPath j (.key s :: p) = some v) :
    ∃ fs w, j = .obj fs ∧ getKey fs s = some w ∧ getPath w p = some v := by
  cases j with
  | obj fs =>
      rw [getPath_obj_key] at h
      cases hk : getKey fs s with
      | none =>
          rw [hk] at h
          exact Option.noConfusion h
      | some w =>
          rw [hk] at h
          simp only [Option.some_bind] at h
          exact ⟨fs, w, rfl, hk, h⟩
  | null => simp at h
  | bool b => simp at h
  | num q => simp at h
  | str t => simp at h
  | arr xs => simp at h

theorem bySevMods_empty (off : ℤ) (g : Rng) :
    (seqU (modKey "critical" (varyCountJson off false (2/10)))
      (seqU (modKey "high" (varyCountJson off false (2/10)))
        (seqU (modKey "medium" (varyCountJson off false (15/100)))
          (modKey "low" (varyCountJson off false (15/100)))))) (.obj []) g
      = (.obj [], g) := rfl

/-- When the severity breakdown is absent or empty, the summary block is
exactly one `vary_count` of the present total. -/
theorem summary_block_total_perturbed (off : ℤ) (ss : List (String × Json)) (g : Rng)
    (tv : Json)
    (hbys : getKey ss "bySeverity" = none ∨ getKey ss "bySeverity" = some (.obj []))
    (htot : getKey ss "total" = some tv) :
    summary_block off (.obj ss) g
      = (.obj (setKey ss "total" ((varyCountJson off false (15/100) tv g).1)),
          (varyCountJson off false (15/100) tv g).2) := by
  have hbys₁ : getKey (setKey ss "total" ((varyCountJson off false (15/100) tv g).1))
      "bySeverity" = getKey ss "bySeverity" :=
    getKey_setKey_ne _ _ _ _ (by decide)
  have e₁ : modKey "total" (varyCountJson off false (15/100)) (.obj ss) g
      = (.obj (setKey ss "total" ((varyCountJson off false (15/100) tv g).1)),
          (varyCountJson off false (15/100) tv g).2) := by
    simp [modKey, htot]
  have e₂ : withSub "bySeverity"
      (seqU (modKey "critical" (varyCountJson off false (2/10)))
        (seqU (modKey "high" (varyCountJson off false (2/10)))
          (seqU (modKey "medium" (varyCountJson off false (15/100)))
            (modKey "low" (varyCountJson off false (15/100))))))
      (.obj (setKey ss "total" ((varyCountJson off false (15/100) tv g).1)))
      ((varyCountJson off false (15/100) tv g).2)
      = (.obj (setKey ss "total" ((varyCountJson off false (15/100) tv g).1)),
          (varyCountJson off false (15/100) tv g).2) := by
    rcases hbys with hb | hb
    · simp [withSub, hbys₁, hb, bySevMods_empty]
    · simp [withSub, hbys₁, hb, bySevMods_empty,
        setKey_of_getKey _ _ _ (hbys₁.trans hb)]
  have e₃ : recomputeTotal
      (.obj (setKey ss "total" ((varyCountJson off false (15/100) tv g).1)))
      ((varyCountJson off false (15/100) tv g).2)
      = (.obj (setKey ss "total" ((varyCountJson off false (15/100) tv g).1)),
          (varyCountJson off false (15/100) tv g).2) := by
    rcases hbys with hb | hb
    · simp [recomputeTotal, hbys₁, hb]
    · simp [recomputeTotal, hbys₁, hb]
  show (seqU _ (seqU _ recomputeTotal)) (.obj ss) g = _
  simp only [seqU]
  rw [e₁, e₂, e₃]

/-- When the baseline severity breakdown is absent or empty, the output
total is an independently perturbed count (never a recomputed sum), and the
breakdown itself is unchanged. -/
theorem vary_audit_total_perturbed (off : ℤ) (j : Json) (g : Rng)
    (sfs : List (String × Json)) (tv : Json)
    (hsummary : getPath j [Step.key "auditFindings", Step.key "summary"]
      = some (.obj sfs))
    (hbys : getKey sfs "bySeverity" = none ∨ getKey sfs "bySeverity" = some (.obj []))
    (htot : getKey sfs "total" = some tv) :
    ∃ g₃,
      getPath ((vary_audit_findings off j g).1)
        [Step.key "auditFindings", Step.key "summary", Step.key "total"]
        = some ((varyCountJson off false (15/100) tv g₃).1) ∧
      getPath ((vary_audit_findings off j g).1)
        [Step.key "auditFindings", Step.key "summary", Step.key "bySeverity"]
        = getKey sfs "bySeverity" := by
  have hrest : Frames (seqU
      (withSub "testing" (withSub "results"
        (modKey "pass" (varyValueJson off true (25/1000) 75 98))))
      (withSub "findings" (varyFindingsList off)))
      (fun p => kLift "testing" (kLift "results" (kLift "pass" leafT)) p ∨
        kLift "findings" (fun q =>
          q = [] ∨ ∃ n r, q = Step.idx n :: r ∧ kLift "status" trueT r) p) :=
    frames_seqU
      (frames_withSub _ (frames_withSub _ (frames_modKey _ (frames_varyValueJson _ _ _ _ _))))
      (frames_withSub _ (frames_varyFindingsList off))
  have hnots : ∀ X : String,
      ¬ (kLift "testing" (kLift "results" (kLift "pass" leafT))
          [Step.key "summary", Step.key X] ∨
        kLift "findings" (fun q =>
          q = [] ∨ ∃ n r, q = Step.idx n :: r ∧ kLift "status" trueT r)
          [Step.key "summary", Step.key X]) := by
    intro X hc
    rcases hc with hc | hc
    · exact not_kLift_of_head_ne (by decide) _ hc
    · exact not_kLift_of_head_ne (by decide) _ hc
  obtain ⟨fs, v, rfl, hv, hsum2⟩ := getPath_key_some hsummary
  obtain ⟨fsv, sv, hveq, hsv, hsv2⟩ := getPath_key_some hsum2
  subst hveq
  have hsveq : sv = .obj sfs := by simpa using hsv2
  subst hsveq
  have hSB := summary_block_total_perturbed off sfs g tv hbys htot
  have hout : (vary_audit_findings off (.obj fs) g).1
      = .obj (setKey fs "auditFindings" (audit_inner off (.obj fsv) g).1) := by
    simp [vary_audit_findings, withSub, hv]
  have hA : withSub "summary" (summary_block off) (.obj fsv) g
      = (.obj (setKey fsv "summary" (summary_block off (.obj sfs) g).1),
          (summary_block off (.obj sfs) g).2) := by
    simp [withSub, hsv]
  have hsplit : (audit_inner off (.obj fsv) g).1
      = ((seqU
          (withSub "testing" (withSub "results"
            (modKey "pass" (varyValueJson off true (25/1000) 75 98))))
          (withSub "findings" (varyFindingsList off)))
        ((withSub "summary" (summary_block off) (.obj fsv) g).1)
        ((withSub "summary" (summary_block off) (.obj fsv) g).2)).1 := rfl
  refine ⟨g, ?_, ?_⟩
  · rw [hout, getPath_obj_key, getKey_setKey_self]
    simp only [Option.some_bind]
    rw [hsplit, hrest _ _ _ (hnots "total"), hA]
    show getPath (.obj (setKey fsv "summary" (summary_block off (.obj sfs) g).1))
      [Step.key "summary", Step.key "total"] = _
    rw [getPath_obj_key, getKey_setKey_self]
    simp only [Option.some_bind]
    rw [hSB]
    show getPath (.obj (setKey sfs "total" ((varyCountJson off false (15/100) tv g).1)))
      [Step.key "total"] = _
    rw [getPath_obj_key, getKey_setKey_self]
    simp only [Option.some_bind, getPath_nil]
  · rw [hout, getPath_obj_key, getKey_setKey_self]
    simp only [Option.some_bind]
    rw [hsplit, hrest _ _ _ (hnots "bySeverity"), hA]
    show getPath (.obj (setKey fsv "summary" (summary_block off (.obj sfs) g).1))
      [Step.key "summary", Step.key "bySeverity"] = _
    rw [getPath_obj_key, getKey_setKey_self]
    simp only [Option.some_bind]
    rw [hSB]
    show getPath (.obj (setKey sfs "total" ((varyCountJson off false (15/100) tv g).1)))
      [Step.key "bySeverity"] = _
    rw [getPath_obj_key, getKey_setKey_ne _ _ _ _ (by decide)]
    rcases hbys with hb | hb
    · rw [hb]
      rfl
    · rw [hb]
      simp only [Option.some_bind, getPath_nil]

theorem kLift_cons {T : List Step → Prop} {k s : String} {q : List Step}
    (h : kLift k T (Step.key s :: q)) : s = k ∧ T q := by
  rcases h with h | ⟨r, hr, ht⟩
  · exact List.noConfusion h
  · injection hr with h₁ h₂
    injection h₁ with h₃
    exact ⟨h₃, by rw [h₂]; exact ht⟩

theorem not_touchedBU_bySeverity_other (k : String)
    (h1 : k ≠ "critical") (h2 : k ≠ "high") (h3 : k ≠ "medium") (h4 : k ≠ "low") :
    ¬ touchedBU [Step.key "auditFindings", Step.key "summary",
      Step.key "bySeverity", Step.key k] := by
  intro hc
  rcases hc with hc | hc | hc | hc | hc | hc | hc
  · exact not_kLift_of_head_ne (by decide) _ hc
  · exact not_kLift_of_head_ne (by decide) _ hc
  · exact not_kLift_of_head_ne (by decide) _ hc
  · exact not_kLift_of_head_ne (by decide) _ hc
  · exact not_kLift_of_head_ne (by decide) _ hc
  · exact not_kLift_of_head_ne (by decide) _ hc
  · obtain ⟨_, hin⟩ := kLift_cons hc
    rcases hin with hin | hin | hin
    · obtain ⟨_, hin₂⟩ := kLift_cons hin
      rcases hin₂ with hin₂ | hin₂ | hin₂
      · exact not_kLift_of_head_ne (by decide) _ hin₂
      · obtain ⟨_, hin₃⟩ := kLift_cons hin₂
        rcases hin₃ with hin₃ | hin₃ | hin₃ | hin₃
        · exact not_kLift_of_head_ne h1 _ hin₃
        · exact not_kLift_of_head_ne h2 _ hin₃
        · exact not_kLift_of_head_ne h3 _ hin₃
        · exact not_kLift_of_head_ne h4 _ hin₃
      · exact not_kLift_of_head_ne (by decide) _ hin₂
    · exact not_kLift_of_head_ne (by decide) _ hin
    · exact not_kLift_of_head_ne (by decide) _ hin

/-- The first four variation passes never touch paths under
`auditFindings`. -/
theorem frontBU_frames_audit (off : ℤ) (j : Json) (g : Rng) (p : List Step) :
    getPath ((frontBU off j g).1) (Step.key "auditFindings" :: p)
      = getPath j (Step.key "auditFindings" :: p) := by
  have hfr : Frames (frontBU off)
      (fun p => touchedES p ∨ (touchedCompliance p ∨
        (touchedRisk p ∨ touchedOps p))) :=
    frames_seqU (frames_ES off) (frames_seqU (frames_Compliance off)
      (frames_seqU (frames_Risk off) (frames_Ops off)))
  refine hfr j g _ ?_
  intro hc
  rcases hc with hc | hc | hc | hc
  · exact not_kLift_of_head_ne (by decide) _ hc
  · exact not_kLift_of_head_ne (by decide) _ hc
  · exact not_kLift_of_head_ne (by decide) _ hc
  · exact not_kLift_of_head_ne (by decide) _ hc

/-- Decomposition of the five passes: the audit pass runs last, on the
output of the first four. -/
theorem buSections_split (off : ℤ) (j : Json) (g : Rng) :
    buSections off j g
      = vary_audit_findings off (frontBU off j g).1 (frontBU off j g).2 := rfl

/-- C3 (counterexample): on a baseline whose findings summary carries a
total but no severity breakdown, the generated document has
`findings.summary.total = 8` while `bySeverity` is absent, so the total does
not equal the (empty) sum of the `bySeverity` values. -/
theorem severity_total_counterexample :
    ∃ pr, generateBU c3doc "q4-2024" rng0 = some pr ∧
      getPath pr.1 [Step.key "auditFindings", Step.key "summary", Step.key "total"]
        = some (Json.num 8) ∧
      getPath pr.1 [Step.key "auditFindings", Step.key "summary", Step.key "bySeverity"]
        = none ∧
      (8 : ℚ) ≠ 0 := by
  refine ⟨_, rfl, ?_, ?_, by norm_num⟩ <;> with_unfolding_all rfl

/-- C3 (amended): after generating a period, whenever the output document
carries a non-empty numeric `findings.summary.bySeverity` mapping, the
output `findings.summary.total` equals exactly the sum of the `bySeverity`
values.  (When `bySeverity` is absent or empty the total is instead an
independently perturbed count; see the counterexample.) -/
theorem severity_total_amended (b : Json) (q : String) (g : Rng) (out : Json)
    (g₂ : Rng) (h : generateBU b q g = some (out, g₂))
    (fs' : List (String × Json)) (t : ℚ)
    (hby : getPath out [Step.key "auditFindings", Step.key "summary",
      Step.key "bySeverity"] = some (.obj fs'))
    (hne : fs'.isEmpty = false) (hsum : sumVals fs' = some t) :
    getPath out [Step.key "auditFindings", Step.key "summary", Step.key "total"]
      = some (.num t) := by
  rcases hq : List.lookup q QUARTER_TRENDS with _ | off
  · rw [generateBU, hq] at h
    exact Option.noConfusion h
  · rcases hd : List.lookup q quarter_dates with _ | d
    · rw [generateBU, hq, hd] at h
      exact Option.noConfusion h
    · rw [generateBU, hq, hd] at h
      have h₂ := Option.some.inj h
      have hout : out = (buSections off
          (setField "date" (.str d) (setField "quarter" (.str q.toUpper) b)) g).1 := by
        rw [h₂]
      rw [hout, buSections_split] at hby ⊢
      exact vary_audit_total off _ _ fs' t hby hne hsum

/-- Witness for C3 (amended) at a concrete baseline, quarter and stream. -/
theorem severity_total_amended_witness :
    getPath c3wOut [Step.key "auditFindings", Step.key "summary", Step.key "total"]
      = some (Json.num 2) :=
  severity_total_amended c3wDoc "q4-2024" rng0 c3wOut ⟨fun _ => 0, 1⟩
    (by with_unfolding_all rfl) [("high", Json.num 2)] 2 rfl rfl
    (by with_unfolding_all rfl)

/-- C10: the business-unit severity total is recomputed as the sum over
every entry of the `bySeverity` mapping, including buckets other than the
four named severities, which are left unperturbed yet still counted; the
recompute happens only when `bySeverity` is present and non-empty, and when
it is absent or empty a present total is instead perturbed independently by
`vary_count` and never recomputed. -/
theorem severity_total_recompute_spec (b : Json) (q : String) (g : Rng) (out : Json)
    (g₂ : Rng) (off : ℤ) (h : generateBU b q g = some (out, g₂))
    (hoff : List.lookup q QUARTER_TRENDS = some off) :
    (∀ fs' t, getPath out [Step.key "auditFindings", Step.key "summary",
        Step.key "bySeverity"] = some (.obj fs') → fs'.isEmpty = false →
      sumVals fs' = some t →
      getPath out [Step.key "auditFindings", Step.key "summary", Step.key "total"]
        = some (.num t)) ∧
    (∀ k, k ≠ "critical" → k ≠ "high" → k ≠ "medium" → k ≠ "low" →
      getPath out [Step.key "auditFindings", Step.key "summary",
        Step.key "bySeverity", Step.key k]
      = getPath b [Step.key "auditFindings", Step.key "summary",
        Step.key "bySeverity", Step.key k]) ∧
    (∀ sfs tv, getPath b [Step.key "auditFindings", Step.key "summary"]
        = some (.obj sfs) →
      (getKey sfs "bySeverity" = none ∨ getKey sfs "bySeverity" = some (.obj [])) →
      getKey sfs "total" = some tv →
      ∃ g₃,
        getPath out [Step.key "auditFindings", Step.key "summary", Step.key "total"]
          = some ((varyCountJson off false (15/100) tv g₃).1) ∧
        getPath out [Step.key "auditFindings", Step.key "summary",
          Step.key "bySeverity"] = getKey sfs "bySeverity") := by
  have hprops := generateBU_props b q g out g₂ h
  rcases hd : List.lookup q quarter_dates with _ | d
  · rw [generateBU, hoff, hd] at h
    exact Option.noConfusion h
  · rw [generateBU, hoff, hd] at h
    have h₂ := Option.some.inj h
    have hout : out = (buSections off
        (setField "date" (.str d) (setField "quarter" (.str q.toUpper) b)) g).1 := by
      rw [h₂]
    refine ⟨?_, ?_, ?_⟩
    · intro fs' t hby hne hsum
      rw [hout, buSections_split] at hby ⊢
      exact vary_audit_total off _ _ fs' t hby hne hsum
    · intro k h1 h2 h3 h4
      exact hprops.1 _ (not_touchedBU_bySeverity_other k h1 h2 h3 h4)
    · intro sfs tv hsummary hbys htot
      have hq1 : ¬ kLift "quarter" trueT
          [Step.key "auditFindings", Step.key "summary"] :=
        not_kLift_of_head_ne (by decide) _
      have hd1 : ¬ kLift "date" trueT
          [Step.key "auditFindings", Step.key "summary"] :=
        not_kLift_of_head_ne (by decide) _
      have hXsum : getPath ((frontBU off
          (setField "date" (.str d) (setField "quarter" (.str q.toUpper) b)) g).1)
          [Step.key "auditFindings", Step.key "summary"] = some (.obj sfs) := by
        rw [frontBU_frames_audit off _ g [Step.key "summary"],
          frames_setField _ _ _ _ hd1, frames_setField _ _ _ _ hq1]
        exact hsummary
      obtain ⟨g₃, ht, hb⟩ := vary_audit_total_perturbed off _ _ sfs tv hXsum hbys htot
      refine ⟨g₃, ?_, ?_⟩
      · rw [hout, buSections_split]
        exact ht
      · rw [hout, buSections_split]
        exact hb

/-- Witness for C10 at a concrete baseline, quarter and stream. -/
theorem severity_total_recompute_spec_witness :
    getPath c10wOut [Step.key "auditFindings", Step.key "summary", Step.key "total"]
      = some (Json.num 2) :=
  (severity_total_recompute_spec c10wDoc "q4-2024" rng0 c10wOut ⟨fun _ => 0, 1⟩ 1
      (by with_unfolding_all rfl) rfl).1
    [("critical", Json.num 2)] 2 rfl rfl (by with_unfolding_all rfl)

/-- C6 (counterexample): on an empty baseline document the enterprise
generator adds the `reportingPeriod` key, so the output does not have
exactly the same key set as the baseline. -/
theorem frame_effect_counterexample :
    ∃ pr, generate_quarterly_enterprise_data (Json.obj []) "q4-2024" rng0 = some pr ∧
      (getPath pr.1 [Step.key "reportingPeriod"]).isSome = true ∧
      getPath (Json.obj []) [Step.key "reportingPeriod"] = none := by
  refine ⟨_, rfl, ?_, rfl⟩
  with_unfolding_all rfl

/-- C6 (amended): for every baseline document and target period, both
generators leave every path outside their fixed touched set (perturbed
fields, metadata fields, recomputed aggregate, finding statuses) unchanged;
the only keys ever added are the two metadata fields and, for the
business-unit generator, the recomputed severity total; and the only paths
that can disappear are those strictly below one of those overwritten
fields. -/
theorem frame_effect_amended (b : Json) (q : String) (g : Rng) (out : Json)
    (g₂ : Rng) (hBU : generateBU b q g = some (out, g₂))
    (bE : Json) (qE : String) (gE : Rng) (outE : Json) (gE₂ : Rng)
    (hE : generate_quarterly_enterprise_data bE qE gE = some (outE, gE₂)) :
    ((∀ p, ¬ touchedBU p → getPath out p = getPath b p) ∧
     (∀ p, getPath b p = none → getPath out p ≠ none → addedBU p) ∧
     (∀ p, getPath b p ≠ none → getPath out p ≠ none ∨ replacedBU p)) ∧
    ((∀ p, ¬ touchedENT p → getPath outE p = getPath bE p) ∧
     (∀ p, getPath bE p = none → getPath outE p ≠ none → addedENT p) ∧
     (∀ p, getPath bE p ≠ none → getPath outE p ≠ none ∨ replacedENT p)) :=
  ⟨generateBU_props b q g out g₂ hBU, generateENT_props bE qE gE outE gE₂ hE⟩

/-- Witness for C6 (amended) at concrete runs of both generators. -/
theorem frame_effect_amended_witness :
    getPath buEmptyOut [Step.key "unrelatedField"]
        = getPath (Json.obj []) [Step.key "unrelatedField"] ∧
      getPath entEmptyOut [Step.key "unrelatedField"]
        = getPath (Json.obj []) [Step.key "unrelatedField"] :=
  ⟨(frame_effect_amended (Json.obj []) "q4-2024" rng0 buEmptyOut rng0
        (by with_unfolding_all rfl)
        (Json.obj []) "q4-2024" rng0 entEmptyOut rng0
        (by with_unfolding_all rfl)).1.1
      [Step.key "unrelatedField"]
      (by
        intro hc
        rcases hc with hc | hc | hc | hc | hc | hc | hc <;>
          exact not_kLift_of_head_ne (by decide) _ hc),
    (frame_effect_amended (Json.obj []) "q4-2024" rng0 buEmptyOut rng0
        (by with_unfolding_all rfl)
        (Json.obj []) "q4-2024" rng0 entEmptyOut rng0
        (by with_unfolding_all rfl)).2.1
      [Step.key "unrelatedField"]
      (by
        intro hc
        rcases hc with hc | hc | hc <;>
          exact not_kLift_of_head_ne (by decide) _ hc)⟩

/-- C4: status flipping of finding records.  In a future period an open
finding is closed exactly when its random draw is below 0.3 and otherwise
keeps its status; in a past period a closed finding is reopened exactly
when its draw is below 0.2; a finding that does not match the guard is left
entirely unchanged with no draw consumed; no field other than `status` is
ever changed; the status stays within the two-value enum; and the findings
list keeps exactly its records. -/
theorem finding_status_flip (off : ℤ) (fs : List (String × Json)) (g : Rng)
    (items : List Json) :
    (0 < off → statusIs fs "Open" = true →
      ∃ fs₂, flipStatus off (.obj fs) g = (.obj fs₂, ⟨g.draws, g.idx + 1⟩) ∧
        (g.draws g.idx < 3/10 → getKey fs₂ "status" = some (.str "Closed")) ∧
        (¬ g.draws g.idx < 3/10 → fs₂ = fs) ∧
        (∀ k, k ≠ "status" → getKey fs₂ k = getKey fs k) ∧
        (getKey fs₂ "status" = some (.str "Open") ∨
          getKey fs₂ "status" = some (.str "Closed"))) ∧
    (off < 0 → statusIs fs "Closed" = true →
      ∃ fs₂, flipStatus off (.obj fs) g = (.obj fs₂, ⟨g.draws, g.idx + 1⟩) ∧
        (g.draws g.idx < 2/10 → getKey fs₂ "status" = some (.str "Open")) ∧
        (¬ g.draws g.idx < 2/10 → fs₂ = fs) ∧
        (∀ k, k ≠ "status" → getKey fs₂ k = getKey fs k) ∧
        (getKey fs₂ "status" = some (.str "Closed") ∨
          getKey fs₂ "status" = some (.str "Open"))) ∧
    (0 < off → statusIs fs "Open" = false → flipStatus off (.obj fs) g = (.obj fs, g)) ∧
    (off < 0 → statusIs fs "Closed" = false →
      flipStatus off (.obj fs) g = (.obj fs, g)) ∧
    (off = 0 → flipStatus off (.obj fs) g = (.obj fs, g)) ∧
    (∃ items₂ g₃, varyFindingsList off (.arr items) g = (.arr items₂, g₃) ∧
      items₂.length = items.length) := by
  refine ⟨?_, ?_, ?_, ?_, ?_, ?_⟩
  · intro hoff hopen
    have hneg : ¬ (off < 0) := by omega
    have e₁ : flipOpen off fs g
        = ((if g.draws g.idx < 3/10 then setKey fs "status" (.str "Closed") else fs),
            ⟨g.draws, g.idx + 1⟩) := by
      rw [flipOpen, if_pos ⟨hoff, hopen⟩]
      rfl
    by_cases hd : g.draws g.idx < 3/10
    · refine ⟨setKey fs "status" (.str "Closed"), ?_, fun _ => getKey_setKey_self _ _ _,
        fun hnd => absurd hd hnd, fun k hk => getKey_setKey_ne _ _ _ _ hk,
        Or.inr (getKey_setKey_self _ _ _)⟩
      show (Json.obj (flipClosed off (flipOpen off fs g).1 (flipOpen off fs g).2).1,
        (flipClosed off (flipOpen off fs g).1 (flipOpen off fs g).2).2) = _
      rw [e₁]
      simp only [if_pos hd]
      rw [flipClosed, if_neg (fun hc => hneg hc.1)]
    · refine ⟨fs, ?_, fun hd₂ => absurd hd₂ hd, fun _ => rfl, fun k _ => rfl,
        Or.inl ((statusIs_iff _ _).1 hopen)⟩
      show (Json.obj (flipClosed off (flipOpen off fs g).1 (flipOpen off fs g).2).1,
        (flipClosed off (flipOpen off fs g).1 (flipOpen off fs g).2).2) = _
      rw [e₁]
      simp only [if_neg hd]
      rw [flipClosed, if_neg (fun hc => hneg hc.1)]
  · intro hoff hclosed
    have hneg : ¬ (0 < off) := by omega
    have e₁ : flipOpen off fs g = (fs, g) := by
      rw [flipOpen, if_neg (fun hc => hneg hc.1)]
    by_cases hd : g.draws g.idx < 2/10
    · refine ⟨setKey fs "status" (.str "Open"), ?_, fun _ => getKey_setKey_self _ _ _,
        fun hnd => absurd hd hnd, fun k hk => getKey_setKey_ne _ _ _ _ hk,
        Or.inr (getKey_setKey_self _ _ _)⟩
      show (Json.obj (flipClosed off (flipOpen off fs g).1 (flipOpen off fs g).2).1,
        (flipClosed off (flipOpen off fs g).1 (flipOpen off fs g).2).2) = _
      rw [e₁, flipClosed, if_pos ⟨hoff, hclosed⟩]
      simp only [Rng.next, if_pos hd]
    · refine ⟨fs, ?_, fun hd₂ => absurd hd₂ hd, fun _ => rfl, fun k _ => rfl,
        Or.inl ((statusIs_iff _ _).1 hclosed)⟩
      show (Json.obj (flipClosed off (flipOpen off fs g).1 (flipOpen off fs g).2).1,
        (flipClosed off (flipOpen off fs g).1 (flipOpen off fs g).2).2) = _
      rw [e₁, flipClosed, if_pos ⟨hoff, hclosed⟩]
      simp only [Rng.next, if_neg hd]
  · intro hoff hopen
    have hneg : ¬ (off < 0) := by omega
    have e₁ : flipOpen off fs g = (fs, g) := by
      rw [flipOpen, if_neg (fun hc => by rw [hc.2] at hopen; exact Bool.noConfusion hopen)]
    show (Json.obj (flipClosed off (flipOpen off fs g).1 (flipOpen off fs g).2).1,
      (flipClosed off (flipOpen off fs g).1 (flipOpen off fs g).2).2) = _
    rw [e₁, flipClosed, if_neg (fun hc => hneg hc.1)]
  · intro hoff hclosed
    have hneg : ¬ (0 < off) := by omega
    have e₁ : flipOpen off fs g = (fs, g) := by
      rw [flipOpen, if_neg (fun hc => hneg hc.1)]
    show (Json.obj (flipClosed off (flipOpen off fs g).1 (flipOpen off fs g).2).1,
      (flipClosed off (flipOpen off fs g).1 (flipOpen off fs g).2).2) = _
    rw [e₁, flipClosed,
      if_neg (fun hc => by rw [hc.2] at hclosed; exact Bool.noConfusion hclosed)]
  · intro hoff
    subst hoff
    have e₁ : flipOpen 0 fs g = (fs, g) := by
      rw [flipOpen, if_neg (fun hc => by exact absurd hc.1 (by omega))]
    show (Json.obj (flipClosed 0 (flipOpen 0 fs g).1 (flipOpen 0 fs g).2).1,
      (flipClosed 0 (flipOpen 0 fs g).1 (flipOpen 0 fs g).2).2) = _
    rw [e₁, flipClosed, if_neg (fun hc => by exact absurd hc.1 (by omega))]
  · exact ⟨_, _, rfl, mapRng_length _ _ _⟩

/-- Witness for C4: a concrete open finding in a future period with a draw
below 0.3. -/
theorem finding_status_flip_witness :
    (0 < (1 : ℤ)) ∧ statusIs [("status", Json.str "Open")] "Open" = true ∧
      ∃ fs₂, flipStatus 1 (.obj [("status", Json.str "Open")]) rng0
          = (.obj fs₂, ⟨rng0.draws, rng0.idx + 1⟩) ∧
        (rng0.draws rng0.idx < 3/10 → getKey fs₂ "status" = some (.str "Closed")) ∧
        (¬ rng0.draws rng0.idx < 3/10 → fs₂ = [("status", Json.str "Open")]) ∧
        (∀ k, k ≠ "status" → getKey fs₂ k = getKey [("status", Json.str "Open")] k) ∧
        (getKey fs₂ "status" = some (.str "Open") ∨
          getKey fs₂ "status" = some (.str "Closed")) :=
  ⟨by norm_num, rfl,
    (finding_status_flip 1 [("status", Json.str "Open")] rng0 []).1 (by norm_num) rfl⟩

/-- C7 (counterexample): with no baseline files, the business-unit `main`
terminates with an uncaught `FileNotFoundError` (modelled as
`Except.error`), not a cleanly reported error. -/
theorem missing_baseline_counterexample :
    bu_main [] rng0 = Except.error "No baseline data files found" := rfl

/-- C7 (amended): with a missing baseline, both generators produce zero
output files; the enterprise variant reports the error cleanly and returns,
while the business-unit variant terminates with an uncaught
`FileNotFoundError` raised by `load_baseline_data`. -/
theorem missing_baseline_amended (b : Json) (g : Rng) :
    enterprise_main false b g = some ([], true) ∧
    bu_main [] g = Except.error "No baseline data files found" :=
  ⟨rfl, rfl⟩

/-- C8: determinism.  Both generators, and both orchestrators, are functions
of the baseline data and the seeded draw stream alone: two runs whose
streams agree pointwise and start at the same cursor produce identical
outputs. -/
theorem generator_deterministic (b : Json) (q : String)
    (files : List (String × Json)) (e : Bool) (g₁ g₂ : Rng)
    (hidx : g₁.idx = g₂.idx) (hdraws : ∀ n, g₁.draws n = g₂.draws n) :
    generateBU b q g₁ = generateBU b q g₂ ∧
    generate_quarterly_enterprise_data b q g₁
      = generate_quarterly_enterprise_data b q g₂ ∧
    bu_main files g₁ = bu_main files g₂ ∧
    enterprise_main e b g₁ = enterprise_main e b g₂ := by
  have heq : g₁ = g₂ := by
    cases g₁ with
    | mk d₁ i₁ =>
        cases g₂ with
        | mk d₂ i₂ =>
            simp only at hidx
            have hd : d₁ = d₂ := funext hdraws
            rw [hd, hidx]
  rw [heq]
  exact ⟨rfl, rfl, rfl, rfl⟩

/-- Witness for C8 at concrete inputs. -/
theorem generator_deterministic_witness :
    generateBU (Json.obj []) "q4-2024" rng0 = generateBU (Json.obj []) "q4-2024" rng0 ∧
    generate_quarterly_enterprise_data (Json.obj []) "q4-2024" rng0
      = generate_quarterly_enterprise_data (Json.obj []) "q4-2024" rng0 ∧
    bu_main [] rng0 = bu_main [] rng0 ∧
    enterprise_main false (Json.obj []) rng0 = enterprise_main false (Json.obj []) rng0 :=
  generator_deterministic (Json.obj []) "q4-2024" [] false rng0 rng0 rfl (fun _ => rfl)

/-- C9 (counterexample): in the end-to-end scenario (baseline scorecard
75/90/50, offset -3), the all-zeros draw stream yields
`activeFindings = 45`, which is not strictly above 50. -/
theorem scenario_counterexample :
    ∃ pr, generate_quarterly_enterprise_data c9doc "q4-2023" rng0 = some pr ∧
      getPath pr.1 [Step.key "executiveScorecard", Step.key "activeFindings"]
        = some (Json.num 45) ∧
      ¬ (50 : ℚ) < 45 := by
  refine ⟨_, rfl, ?_, by norm_num⟩
  with_unfolding_all rfl

/-- C9 (amended): in the end-to-end scenario, for every draw stream with
unit draws in `[0, 1)`: `enterpriseRiskScore` is strictly below 75 and in
`[60, 95]`, `complianceRate` is strictly below 90 and in `[80, 99]`, and
`activeFindings` is an integer in `[45, 60]` (not necessarily above 50). -/
theorem scenario_amended (g : Rng) (hd : ∀ n, 0 ≤ g.draws n ∧ g.draws n < 1) :
    ∃ pr, generate_quarterly_enterprise_data c9doc "q4-2023" g = some pr ∧
      (∃ r : ℚ, getPath pr.1 [Step.key "executiveScorecard",
          Step.key "enterpriseRiskScore"] = some (.num r) ∧
        60 ≤ r ∧ r ≤ 95 ∧ r < 75) ∧
      (∃ c : ℚ, getPath pr.1 [Step.key "executiveScorecard",
          Step.key "complianceRate"] = some (.num c) ∧
        80 ≤ c ∧ c ≤ 99 ∧ c < 90) ∧
      (∃ a : ℚ, getPath pr.1 [Step.key "executiveScorecard",
          Step.key "activeFindings"] = some (.num a) ∧
        (∃ z : ℤ, a = (z : ℚ)) ∧ 45 ≤ a ∧ a ≤ 60) := by
  refine ⟨_, rfl, ?_, ?_, ?_⟩
  · obtain ⟨hu0, hu1⟩ := hd g.idx
    refine ⟨max 60 (min 95 (75 * (1 + ((-3 : ℤ) : ℚ) * (15/1000) * 1 +
      (-(2/100) + (2/100 - -(2/100)) * g.draws g.idx)))), rfl,
      le_max_left _ _, max_le (by norm_num) (min_le_left _ _), ?_⟩
    have hX : 75 * (1 + ((-3 : ℤ) : ℚ) * (15/1000) * 1 +
        (-(2/100) + (2/100 - -(2/100)) * g.draws g.idx)) < 75 := by
      push_cast
      nlinarith
    exact max_lt (by norm_num) (lt_of_le_of_lt (min_le_right _ _) hX)
  · obtain ⟨hu0, hu1⟩ := hd (g.idx + 1)
    refine ⟨max 80 (min 99 (90 * (1 + ((-3 : ℤ) : ℚ) * (15/1000) * 1 +
      (-(15/1000) + (15/1000 - -(15/1000)) * g.draws (g.idx + 1))))), rfl,
      le_max_left _ _, max_le (by norm_num) (min_le_left _ _), ?_⟩
    have hX : 90 * (1 + ((-3 : ℤ) : ℚ) * (15/1000) * 1 +
        (-(15/1000) + (15/1000 - -(15/1000)) * g.draws (g.idx + 1))) < 90 := by
      push_cast
      nlinarith
    exact max_lt (by norm_num) (lt_of_le_of_lt (min_le_right _ _) hX)
  · obtain ⟨hu0, hu1⟩ := hd (g.idx + 1 + 1)
    have hinner_lb : (179/4 : ℚ) ≤ 50 * (1 + ((-3 : ℤ) : ℚ) * (15/1000) * -1 +
        (-(15/100) + (15/100 - -(15/100)) * g.draws (g.idx + 1 + 1))) := by
      push_cast
      nlinarith
    have hinner_ub : 50 * (1 + ((-3 : ℤ) : ℚ) * (15/1000) * -1 +
        (-(15/100) + (15/100 - -(15/100)) * g.draws (g.idx + 1 + 1))) < 239/4 := by
      push_cast
      nlinarith
    have hYeq : max 0 (min 999999 (50 * (1 + ((-3 : ℤ) : ℚ) * (15/1000) * -1 +
        (-(15/100) + (15/100 - -(15/100)) * g.draws (g.idx + 1 + 1)))))
        = 50 * (1 + ((-3 : ℤ) : ℚ) * (15/1000) * -1 +
          (-(15/100) + (15/100 - -(15/100)) * g.draws (g.idx + 1 + 1))) := by
      rw [min_eq_right (by linarith), max_eq_right (by linarith)]
    refine ⟨((pyRound (max 0 (min 999999 (50 * (1 + ((-3 : ℤ) : ℚ) * (15/1000) * -1 +
        (-(15/100) + (15/100 - -(15/100)) * g.draws (g.idx + 1 + 1)))))) : ℤ) : ℚ),
      rfl, ⟨_, rfl⟩, ?_, ?_⟩
    · rw [hYeq]
      have hlow := le_pyRound (50 * (1 + ((-3 : ℤ) : ℚ) * (15/1000) * -1 +
        (-(15/100) + (15/100 - -(15/100)) * g.draws (g.idx + 1 + 1))))
      have h44z : (44 : ℤ) < pyRound (50 * (1 + ((-3 : ℤ) : ℚ) * (15/1000) * -1 +
        (-(15/100) + (15/100 - -(15/100)) * g.draws (g.idx + 1 + 1)))) := by
        exact_mod_cast (by linarith :
          (44 : ℚ) < ((pyRound (50 * (1 + ((-3 : ℤ) : ℚ) * (15/1000) * -1 +
        (-(15/100) + (15/100 - -(15/100)) * g.draws (g.idx + 1 + 1)))) : ℤ) : ℚ))
      exact_mod_cast (by omega :
        (45 : ℤ) ≤ pyRound (50 * (1 + ((-3 : ℤ) : ℚ) * (15/1000) * -1 +
        (-(15/100) + (15/100 - -(15/100)) * g.draws (g.idx + 1 + 1)))))
    · rw [hYeq]
      have hhigh := pyRound_le (50 * (1 + ((-3 : ℤ) : ℚ) * (15/1000) * -1 +
        (-(15/100) + (15/100 - -(15/100)) * g.draws (g.idx + 1 + 1))))
      have h61z : pyRound (50 * (1 + ((-3 : ℤ) : ℚ) * (15/1000) * -1 +
        (-(15/100) + (15/100 - -(15/100)) * g.draws (g.idx + 1 + 1)))) < 61 := by
        exact_mod_cast (by linarith :
          ((pyRound (50 * (1 + ((-3 : ℤ) : ℚ) * (15/1000) * -1 +
        (-(15/100) + (15/100 - -(15/100)) * g.draws (g.idx + 1 + 1)))) : ℤ) : ℚ) < 61)
      exact_mod_cast (by omega :
        pyRound (50 * (1 + ((-3 : ℤ) : ℚ) * (15/1000) * -1 +
        (-(15/100) + (15/100 - -(15/100)) * g.draws (g.idx + 1 + 1)))) ≤ (60 : ℤ))

/-- Witness for C9 (amended) at the all-zeros draw stream. -/
theorem scenario_amended_witness :
    (∀ n, 0 ≤ rng0.draws n ∧ rng0.draws n < 1) ∧
      ∃ pr, generate_quarterly_enterprise_data c9doc "q4-2023" rng0 = some pr ∧
        (∃ r : ℚ, getPath pr.1 [Step.key "executiveScorecard",
            Step.key "enterpriseRiskScore"] = some (.num r) ∧
          60 ≤ r ∧ r ≤ 95 ∧ r < 75) ∧
        (∃ c : ℚ, getPath pr.1 [Step.key "executiveScorecard",
            Step.key "complianceRate"] = some (.num c) ∧
          80 ≤ c ∧ c ≤ 99 ∧ c < 90) ∧
        (∃ a : ℚ, getPath pr.1 [Step.key "executiveScorecard",
            Step.key "activeFindings"] = some (.num a) ∧
          (∃ z : ℤ, a = (z : ℚ)) ∧ 45 ≤ a ∧ a ≤ 60) :=
  ⟨fun n => ⟨le_refl 0, by norm_num [rng0]⟩,
    scenario_amended rng0 (fun n => ⟨le_refl 0, by norm_num [rng0]⟩)⟩

end AuditDashboard
